import Mathlib

/-!
# Echo server (main.c): event loop, connection lifecycle and startup

A shallow embedding of `main.c`.  Every system call the program makes is
recorded as an `Action` in a trace, and every value the operating system
hands back (return codes, errno, received bytes, the ready-event array) is
an explicit input.  The kernel's epoll interest list and the set of open
client descriptors are tracked next to the trace so that statements about
registration can be made.
-/

namespace EchoServer

/-! ## Constants taken from the system headers -/

/-- Constants that `main.c` takes from the system headers
(`<sys/socket.h>`, `<stdio.h>`, `<sys/epoll.h>`, `<errno.h>`, `<fcntl.h>`,
`<signal.h>`, `<stdlib.h>`); they are not defined in the repository. -/
structure Consts where
  SOMAXCONN : Nat
  BUFSIZ : Nat
  EPOLLIN : Nat
  EAGAIN : Int
  EWOULDBLOCK : Int
  O_NONBLOCK : Int
  SIGINT : Int
  EXIT_FAILURE : Int

/-- The values of the constants on x86-64 Linux with glibc (`SOMAXCONN` has its
traditional value 128). -/
def linux : Consts where
  SOMAXCONN := 128
  BUFSIZ := 8192
  EPOLLIN := 1
  EAGAIN := 11
  EWOULDBLOCK := 11
  O_NONBLOCK := 2048
  SIGINT := 2
  EXIT_FAILURE := 1

/-! ## Observable actions -/

/-- The operation named in a `perror` call. -/
inductive Op
  | fcntl | recv | accept | setsockopt | epoll_ctl | socket | bind | listen
  deriving DecidableEq, Repr

/-- One observable step of the program: a system call, a line of console
output, or a use of an index on the `socket_events` table. -/
inductive Action
  /-- The call `epoll_create1(0)`. -/
  | epoll_create1
  /-- Use of `socket_events[i]`. -/
  | table_index (i : Int)
  /-- The call `epoll_ctl(epfd, EPOLL_CTL_ADD, fd, ..)`. -/
  | epoll_ctl_add (epfd fd : Int)
  /-- The call `epoll_ctl(epfd, EPOLL_CTL_DEL, fd, ..)`. -/
  | epoll_ctl_del (epfd fd : Int)
  /-- The call `epoll_wait(epfd, events, SOMAXCONN, -1)`. -/
  | epoll_wait (epfd : Int) (maxevents : Nat)
  /-- The call `accept(fd, ..)`. -/
  | accept (fd : Int)
  /-- The call `setsockopt(fd, SOL_TCP, TCP_NODELAY, ..)`. -/
  | setsockopt_nodelay (fd : Int)
  /-- The call `setsockopt(fd, SOL_SOCKET, SO_REUSEADDR, ..)`. -/
  | setsockopt_reuseaddr (fd : Int)
  /-- The call `fcntl(fd, F_GETFL, 0)`. -/
  | fcntl_getfl (fd : Int)
  /-- The call `fcntl(fd, F_SETFL, flags)`. -/
  | fcntl_setfl (fd : Int) (flags : Int)
  /-- The call `recv(fd, buffer, cap, 0)`. -/
  | recv (fd : Int) (cap : Nat)
  /-- The call `send(fd, buffer, len, 0)`, with the `len` bytes handed over. -/
  | send (fd : Int) (bytes : List Nat)
  /-- The call `close(fd)`. -/
  | close (fd : Int)
  /-- The call `socket(AF_INET, SOCK_STREAM, 0)`. -/
  | socket
  /-- The call `bind(fd, INADDR_ANY : port)`. -/
  | bind (fd : Int) (port : Int)
  /-- The call `listen(fd, backlog)`. -/
  | listen (fd : Int) (backlog : Nat)
  /-- The call `signal(SIGINT, &handle_signal)`. -/
  | signal_install
  /-- The call `perror("<op>()")`. -/
  | perror (op : Op)
  /-- The output of `printf("[%2d]: %s", fd, buffer)`: the bytes before the first NUL. -/
  | log_data (fd : Int) (text : List Nat)
  /-- The output `Closing FD <fd>`. -/
  | log_closing (fd : Int)
  /-- The output `Accepted connection from <peer> with FD <fd>`. -/
  | log_accepted (fd : Int)
  /-- The output `Rejected client from <peer> due to too many connections`. -/
  | log_rejected
  /-- The output `Server listening on <addr>:<port>`. -/
  | log_listening (port : Int)
  /-- The output `Server exited`. -/
  | log_exited
  /-- The output `USAGE: <prog> [-h] [-p PORT]`. -/
  | log_usage
  deriving DecidableEq, Repr

/-! ## `set_blocking` (main.c lines 15-27) -/

/-- The function `set_blocking(fd, is_blocking)`; `getfl_ret` and `setfl_ret` are what
the two `fcntl` calls return.  The result is the return value and the
actions performed. -/
def set_blocking (k : Consts) (fd : Int) (is_blocking : Int)
    (getfl_ret setfl_ret : Int) : Int × List Action :=
  let flags := getfl_ret
  if flags = -1 then
    (-1, [.fcntl_getfl fd, .perror .fcntl])
  else
    let flags := if is_blocking ≠ 0 then Int.land flags (Int.not k.O_NONBLOCK)
                 else Int.lor flags k.O_NONBLOCK
    if setfl_ret ≠ 0 then
      (-1, [.fcntl_getfl fd, .fcntl_setfl fd flags, .perror .fcntl])
    else
      (0, [.fcntl_getfl fd, .fcntl_setfl fd flags])

/-! ## `handle_event_read` (main.c lines 29-47) -/

/-- What the single `recv` call yields: a failure with its `errno`, or the
bytes the kernel stored at the start of the buffer (none for an orderly
shutdown of the peer). -/
inductive RecvOutcome
  | error (errno : Int)
  | data (bytes : List Nat)
  deriving DecidableEq, Repr

/-- The return value of `recv`. -/
def RecvOutcome.len : RecvOutcome → Int
  | .error _ => -1
  | .data bytes => bytes.length

/-- The value of `errno` after `recv`. -/
def RecvOutcome.errno : RecvOutcome → Int
  | .error e => e
  | .data _ => 0

/-- The buffer after `recv` has stored its bytes at index 0. -/
def RecvOutcome.fill : RecvOutcome → List Nat → List Nat
  | .error _, buffer => buffer
  | .data bytes, buffer => bytes ++ buffer.drop bytes.length

/-- The function `handle_event_read(active_fd)`.  `stack` is the uninitialised
content of the `BUFSIZ` bytes of `buffer`, `r` the outcome of `recv`.  The
result is the return value and the actions performed. -/
def handle_event_read (k : Consts) (stack : Nat → Nat) (active_fd : Int)
    (r : RecvOutcome) : Int × List Action :=
  let buffer := (List.range' 0 k.BUFSIZ).map stack
  let len := r.len
  let buffer := r.fill buffer
  if len < 0 then
    if r.errno = k.EAGAIN ∨ r.errno = k.EWOULDBLOCK then
      (0, [.recv active_fd (k.BUFSIZ - 1)])
    else
      (-1, [.recv active_fd (k.BUFSIZ - 1), .perror .recv])
  else if len = 0 then
    (-1, [.recv active_fd (k.BUFSIZ - 1)])
  else
    let buffer := buffer.set len.toNat 0
    (0, [.recv active_fd (k.BUFSIZ - 1),
         .log_data active_fd (buffer.takeWhile (fun b => b ≠ 0)),
         .send active_fd (buffer.take len.toNat)])

/-! ## `server_loop` (main.c lines 49-119) -/

/-- One slot of the `events` array filled by `epoll_wait`. -/
structure Event where
  events : Nat
  fd : Int
  deriving DecidableEq, Repr, Inhabited

/-- What the system calls of one iteration of the processing loop return. -/
structure IterEnv where
  accept_ret : Int := -1
  setsockopt_ret : Int := 0
  getfl_ret : Int := 0
  setfl_ret : Int := 0
  epoll_add_ret : Int := 0
  recv : RecvOutcome := .error 0
  stack : Nat → Nat := fun _ => 0

instance : Inhabited IterEnv := ⟨{}⟩

/-- The program state together with the kernel state it acts on. -/
structure State where
  /-- The global `is_server_running`. -/
  is_server_running : Int
  /-- The descriptors in the interest list of the epoll instance. -/
  registered : List Int
  /-- The client descriptors returned by `accept` and not closed since. -/
  clients : List Int
  /-- The actions performed so far, oldest first. -/
  trace : List Action
  deriving DecidableEq, Repr

/-- The function `handle_signal(sig)`. -/
def handle_signal (k : Consts) (sig : Int) (s : State) : State :=
  if sig = k.SIGINT then { s with is_server_running := 0 } else s

/-- Record actions in the trace. -/
def State.emit (s : State) (acts : List Action) : State :=
  { s with trace := s.trace ++ acts }

/-- Kernel effect of `close(fd)`: the descriptor is released and leaves the
interest list. -/
def State.close (s : State) (fd : Int) : State :=
  { s with registered := s.registered.filter (fun x => x ≠ fd),
           clients := s.clients.filter (fun x => x ≠ fd),
           trace := s.trace ++ [.close fd] }

/-- Kernel effect of `epoll_ctl(epfd, EPOLL_CTL_ADD, fd, ..)` returning `ret`. -/
def State.epoll_add (s : State) (epfd fd ret : Int) : State :=
  { s with registered := if ret = 0 then s.registered.insert fd else s.registered,
           trace := s.trace ++ [.table_index fd, .epoll_ctl_add epfd fd] }

/-- Kernel effect of `epoll_ctl(epfd, EPOLL_CTL_DEL, fd, ..)`. -/
def State.epoll_del (s : State) (epfd fd : Int) : State :=
  { s with registered := s.registered.filter (fun x => x ≠ fd),
           trace := s.trace ++ [.table_index fd, .epoll_ctl_del epfd fd] }

/-- Kernel effect of `accept` returning `ret`. -/
def State.accepted (s : State) (server_fd ret : Int) : State :=
  { s with clients := if 0 ≤ ret then s.clients.insert ret else s.clients,
           trace := s.trace ++ [.accept server_fd] }

/-- The accept branch of the processing loop (main.c lines 68-106). -/
def accept_branch (k : Consts) (server_fd epfd : Int) (o : IterEnv) (s : State) : State :=
  let client_fd := o.accept_ret
  let s := s.accepted server_fd client_fd
  if client_fd < 0 then
    s.emit [.perror .accept]
  else if client_fd ≥ (k.SOMAXCONN : Int) then
    (s.emit [.log_rejected]).close client_fd
  else if o.setsockopt_ret < 0 then
    (s.emit [.setsockopt_nodelay client_fd, .perror .setsockopt]).close client_fd
  else
    let s := s.emit [.setsockopt_nodelay client_fd]
    let sb := set_blocking k client_fd 0 o.getfl_ret o.setfl_ret
    let s := s.emit sb.2
    if sb.1 ≠ 0 then
      s.close client_fd
    else
      let s := s.epoll_add epfd client_fd o.epoll_add_ret
      if o.epoll_add_ret ≠ 0 then
        (s.emit [.perror .epoll_ctl]).close client_fd
      else
        s.emit [.log_accepted client_fd]

/-- The client branch of the processing loop (main.c lines 108-113). -/
def client_branch (k : Consts) (epfd active_fd : Int) (o : IterEnv) (s : State) : State :=
  let r := handle_event_read k o.stack active_fd o.recv
  let s := s.emit r.2
  if r.1 = -1 then
    ((s.emit [.log_closing active_fd]).epoll_del epfd active_fd).close active_fd
  else
    s

/-- The body of the processing loop for index `i` (main.c lines 65-115).
The active descriptor is read through `events->data.fd`, that is, from
slot 0 of the array. -/
def loop_body (k : Consts) (server_fd epfd : Int) (events : List Event) (i : Nat)
    (o : IterEnv) (s : State) : State :=
  if (events.getD i default).events &&& k.EPOLLIN ≠ 0 then
    let active_fd := (events.getD 0 default).fd
    if active_fd = server_fd then
      accept_branch k server_fd epfd o s
    else
      client_branch k epfd active_fd o s
  else
    s

/-- One wake cycle as seen from the program: what `epoll_wait` returned and
stored, what the system calls of each iteration return, and the signals
delivered to the process while the cycle runs. -/
structure Cycle where
  num_events : Int
  events : List Event
  iters : List IterEnv
  signals : List Int := []

/-- The processing loop `for (i = 0; i < num_events; i++)`, from index `i`
for `n` more iterations. -/
def for_loop (k : Consts) (server_fd epfd : Int) (c : Cycle) : Nat → Nat → State → State
  | _, 0, s => s
  | i, n + 1, s =>
    for_loop k server_fd epfd c (i + 1) n
      (loop_body k server_fd epfd c.events i (c.iters.getD i default) s)

/-- Deliver signals to `handle_signal`, in order. -/
def deliver (k : Consts) (sigs : List Int) (s : State) : State :=
  sigs.foldl (fun st sig => handle_signal k sig st) s

/-- One pass through the body of `while (is_server_running)` (main.c lines
61-116).  Nothing in the body reads the flag, so the signals of the cycle
are delivered after the work. -/
def wake_cycle (k : Consts) (server_fd epfd : Int) (c : Cycle) (s : State) : State :=
  let s := s.emit [.epoll_wait epfd k.SOMAXCONN]
  let s := for_loop k server_fd epfd c 0 c.num_events.toNat s
  deliver k c.signals s

/-- The loop `while (is_server_running)` over the given wake cycles: the state
reached, and whether the loop has been left. -/
def while_loop (k : Consts) (server_fd epfd : Int) : List Cycle → State → State × Bool
  | [], s => (s, s.is_server_running = 0)
  | c :: cs, s =>
    if s.is_server_running ≠ 0 then
      while_loop k server_fd epfd cs (wake_cycle k server_fd epfd c s)
    else
      (s, true)

/-- What the calls before the loop return. -/
structure LoopEnv where
  epfd : Int
  add_ret : Int
  cycles : List Cycle

/-- The state of `server_loop` in front of `while` (main.c lines 50-58). -/
def loop_init (server_fd : Int) (e : LoopEnv) (s : State) : State :=
  (s.emit [.epoll_create1]).epoll_add e.epfd server_fd e.add_ret

/-- The function `server_loop(server_fd)`: `none` when the loop is still running after
the given wake cycles, otherwise the state on return. -/
def server_loop (k : Consts) (server_fd : Int) (e : LoopEnv) (s : State) : Option State :=
  let r := while_loop k server_fd e.epfd e.cycles (loop_init server_fd e s)
  if r.2 then some (r.1.emit [.close e.epfd]) else none

/-! ## `main` (main.c lines 131-190) -/

/-- One result of `getopt(argc, argv, "p:h")` other than -1: the option `-p`
with the value of `atoi(optarg)`, the option `-h`, or anything else. -/
inductive GetOpt
  | p (atoi_optarg : Int)
  | h
  | other
  deriving DecidableEq, Repr

/-- The function `print_help(prog_name)`. -/
def print_help : List Action := [.log_usage]

/-- The option loop of `main` (lines 137-149): the port to bind, or the exit
status and output when the process ends there. -/
def parse_options (k : Consts) : List GetOpt → Int → Int ⊕ (Int × List Action)
  | [], bind_port => .inl bind_port
  | .p v :: rest, _ => parse_options k rest v
  | .h :: _, _ => .inr (0, print_help)
  | .other :: _, _ => .inr (k.EXIT_FAILURE, print_help)

/-- What the system calls of `main` return, the signals delivered before the
loop starts, and the environment of `server_loop`. -/
structure MainEnv where
  opts : List GetOpt
  socket_ret : Int
  setsockopt_ret : Int
  getfl_ret : Int
  setfl_ret : Int
  bind_ret : Int
  listen_ret : Int
  early_signals : List Int
  loop : LoopEnv

/-- The state in which `main` starts: `is_server_running = 1`, nothing
registered, no client, nothing done. -/
def initial_state : State := ⟨1, [], [], []⟩

/-- The part of `main` in front of the call of `server_loop` (lines 132-184):
either the process ends there, with its exit status and final state, or the
listening descriptor `e.socket_ret` is ready and the state is handed on. -/
def startup (k : Consts) (e : MainEnv) : (Int × State) ⊕ State :=
  let s := initial_state.emit [.signal_install]
  match parse_options k e.opts 9999 with
  | .inr (status, out) => .inl (status, s.emit out)
  | .inl bind_port =>
    let server_fd := e.socket_ret
    let s := s.emit [.socket]
    if server_fd < 0 then
      .inl (k.EXIT_FAILURE, s.emit [.perror .socket])
    else if e.setsockopt_ret < 0 then
      .inl (k.EXIT_FAILURE,
        s.emit [.setsockopt_reuseaddr server_fd, .perror .setsockopt, .close server_fd])
    else
      let s := s.emit [.setsockopt_reuseaddr server_fd]
      let sb := set_blocking k server_fd 0 e.getfl_ret e.setfl_ret
      let s := s.emit sb.2
      if sb.1 ≠ 0 then
        .inl (k.EXIT_FAILURE, s.emit [.close server_fd])
      else
        let s := s.emit [.bind server_fd (bind_port % 65536)]
        if e.bind_ret < 0 then
          .inl (k.EXIT_FAILURE, s.emit [.perror .bind, .close server_fd])
        else
          let s := s.emit [.listen server_fd k.SOMAXCONN]
          if e.listen_ret < 0 then
            .inl (k.EXIT_FAILURE, s.emit [.perror .listen, .close server_fd])
          else
            .inr (s.emit [.log_listening bind_port])

/-- The function `main`: `none` when `server_loop` has not returned after the given wake
cycles, otherwise the exit status of the process and the final state. -/
def main (k : Consts) (e : MainEnv) : Option (Int × State) :=
  match startup k e with
  | .inl r => some r
  | .inr s =>
    match server_loop k e.socket_ret e.loop (deliver k e.early_signals s) with
    | none => none
    | some s => some (0, s.emit [.close e.socket_ret, .log_exited])

/-- The state after the given wake cycles have all been run. -/
def run_cycles (k : Consts) (server_fd epfd : Int) (cs : List Cycle) (s : State) : State :=
  cs.foldl (fun st c => wake_cycle k server_fd epfd c st) s

/-- The condition under which an accepted descriptor ends up registered: it is
below `SOMAXCONN`, and `setsockopt`, both `fcntl` calls of `set_blocking` and
`epoll_ctl` succeed. -/
def accept_succeeds (k : Consts) (o : IterEnv) : Prop :=
  o.accept_ret < (k.SOMAXCONN : Int) ∧ 0 ≤ o.setsockopt_ret ∧
    o.getfl_ret ≠ -1 ∧ o.setfl_ret = 0 ∧ o.epoll_add_ret = 0

instance (k : Consts) (o : IterEnv) : Decidable (accept_succeeds k o) := by
  unfold accept_succeeds
  infer_instance

/-- An action that is a `recv` or a `send`. -/
def Action.is_io : Action → Bool
  | .recv _ _ => true
  | .send _ _ => true
  | _ => false

/-! ## The capacity scenario -/

/-- The descriptor the operating system hands out next: the lowest number
from `c` on that is not in `open_fds`, searching at most `fuel` numbers. -/
def lowest_free_from (open_fds : List Int) : Nat → Nat → Int
  | 0, c => c
  | fuel + 1, c =>
    if (c : Int) ∈ open_fds then lowest_free_from open_fds fuel (c + 1) else c

/-- The lowest descriptor number that is not open (the POSIX rule for a new
descriptor); among `0 .. length` one number is always free. -/
def lowest_free (open_fds : List Int) : Int :=
  lowest_free_from open_fds open_fds.length 0

/-- The state of `server_loop` in front of its first wait, for a process that
holds 0, 1, 2 (standard streams), 3 (listening) and 4 (epoll). -/
def listening_state : State :=
  loop_init 3 ⟨4, 0, []⟩ initial_state

/-- One more client connects and stays open: a wake cycle in which only the
listening descriptor 3 is readable, `accept` returns the lowest free
descriptor of the process, and every option call succeeds. -/
def connect (k : Consts) (s : State) : State :=
  wake_cycle k 3 4
    ⟨1, [⟨k.EPOLLIN, 3⟩],
      [{ accept_ret := lowest_free ([0, 1, 2, 3, 4] ++ s.clients) }], []⟩ s

/-- The state after `n` clients have connected, none of them closing. -/
def connect_all (k : Consts) : Nat → State → State
  | 0, s => s
  | n + 1, s => connect k (connect_all k n s)

/-- The descriptors `n + 4, .., 6, 5` of the first `n` clients. -/
def client_fds : Nat → List Int
  | 0 => []
  | n + 1 => ((n : Int) + 5) :: client_fds n

/-! ## Predicates on states and runs -/

/-- The interest list holds exactly the listening descriptor and the open
clients, and all of its members are valid indexes of `socket_events`. -/
def registration_invariant (k : Consts) (server_fd : Int) (s : State) : Prop :=
  (∀ x, x ∈ s.registered ↔ x = server_fd ∨ x ∈ s.clients) ∧
  (∀ x ∈ s.registered, 0 ≤ x ∧ x < (k.SOMAXCONN : Int))

/-- Every index used on `socket_events` so far is inside the table. -/
def indices_in_bounds (k : Consts) (s : State) : Prop :=
  ∀ i, Action.table_index i ∈ s.trace → 0 ≤ i ∧ i < (k.SOMAXCONN : Int)

/-- What `epoll_wait` guarantees along a run of the loop: every event it
reports carries the descriptor of an entry that is in the interest list when
the wait returns. -/
def reports_registered (k : Consts) (server_fd epfd : Int) : List Cycle → State → Prop
  | [], _ => True
  | c :: cs, s =>
    s.is_server_running ≠ 0 →
      (∀ i, i < c.num_events.toNat → (c.events.getD i default).fd ∈ s.registered) ∧
      reports_registered k server_fd epfd cs (wake_cycle k server_fd epfd c s)

/-- No `accept` of the given wake cycles returns the descriptor `fd`. -/
def accept_avoids (fd : Int) (cs : List Cycle) : Prop :=
  ∀ c ∈ cs, ∀ o ∈ c.iters, o.accept_ret ≠ fd

/-- An action that is a `recv` or a `send` on the descriptor `fd`. -/
def Action.touches (fd : Int) : Action → Prop
  | .recv x _ => x = fd
  | .send x _ => x = fd
  | _ => False

/-- An environment for `server_loop` in a process that is at its descriptor
limit: `epoll_create1` fails and returns -1, so `epoll_ctl` and every
`epoll_wait` on that descriptor fail with -1 as well. -/
def no_epoll_instance : LoopEnv :=
  ⟨-1, -1, [⟨-1, [], [], []⟩, ⟨-1, [], [], []⟩]⟩

/-- An environment for `server_loop`: client 5 connects in the first wake cycle
and closes in the second. -/
def connect_then_close : LoopEnv :=
  ⟨4, 0, [⟨1, [⟨1, 3⟩], [{ accept_ret := 5 }], []⟩,
          ⟨1, [⟨1, 5⟩], [{ recv := .data [] }], []⟩]⟩

/-- From state `s` to state `s1` the trace has only grown, and by no `recv` or
`send` on the descriptor `fd`. -/
def quiet (fd : Int) (s s1 : State) : Prop :=
  ∃ acts, s1.trace = s.trace ++ acts ∧ ∀ a ∈ acts, ¬ a.touches fd

/-! ## Receiving and echoing -/

/-- Storing a NUL right behind a block of bytes leaves the block as it is. -/
theorem set_after_block (S : List Nat) (r : Nat) (rs : List Nat) :
    (S ++ r :: rs).set S.length 0 = S ++ 0 :: rs := by
  induction S with
  | nil => rfl
  | cons a t ih => simp [List.set, ih]

/-- Printing with `%s` stops at the NUL stored behind the received bytes. -/
theorem takeWhile_block (S rs : List Nat) :
    (S ++ 0 :: rs).takeWhile (fun b => b ≠ 0) = S.takeWhile (fun b => b ≠ 0) := by
  induction S with
  | nil => simp
  | cons a t ih =>
    by_cases h : a = 0
    · simp [List.takeWhile, h]
    · simpa [List.takeWhile, h] using ih

/-- The buffer once `recv` has stored `S` and the NUL has been written. -/
theorem buffer_shape (k : Consts) (stack : Nat → Nat) (S : List Nat)
    (h : S.length < k.BUFSIZ) :
    ∃ rs, ((RecvOutcome.data S).fill ((List.range' 0 k.BUFSIZ).map stack)).set S.length 0
      = S ++ 0 :: rs := by
  have hlen : ((List.range' 0 k.BUFSIZ).map stack).length = k.BUFSIZ := by simp
  have hne : ((List.range' 0 k.BUFSIZ).map stack).drop S.length ≠ [] := by
    intro h0
    have := congrArg List.length h0
    simp at this
    omega
  obtain ⟨r, rs, hr⟩ := List.exists_cons_of_ne_nil hne
  refine ⟨rs, ?_⟩
  show (S ++ ((List.range' 0 k.BUFSIZ).map stack).drop S.length).set S.length 0 = _
  rw [hr, set_after_block]

/-- What `handle_event_read` does when `recv` stores between 1 and `BUFSIZ - 1`
bytes. -/
theorem handle_event_read_data (k : Consts) (stack : Nat → Nat) (fd : Int) (S : List Nat)
    (h1 : 1 ≤ S.length) (h2 : S.length ≤ k.BUFSIZ - 1) :
    handle_event_read k stack fd (.data S) =
      (0, [.recv fd (k.BUFSIZ - 1),
           .log_data fd (S.takeWhile (fun b => b ≠ 0)),
           .send fd S]) := by
  obtain ⟨rs, hrs⟩ := buffer_shape k stack S (by omega)
  have hlen : ¬ ((S.length : Int) < 0) := by omega
  have hz : ¬ ((S.length : Int) = 0) := by omega
  simp only [handle_event_read, RecvOutcome.len, hlen, hz, if_false, Int.toNat_ofNat]
  rw [hrs, takeWhile_block]
  simp

/-! ## Accepting a connection -/

/-- The outcome of the accept branch for a descriptor `client_fd ≥ 0`: it is
registered exactly when all steps succeed, otherwise it is closed last and
neither registered nor open; no `recv` or `send` is performed. -/
theorem accept_branch_outcome (k : Consts) (server_fd epfd : Int) (o : IterEnv) (s : State)
    (h0 : 0 ≤ o.accept_ret) :
    (o.accept_ret ∈ (accept_branch k server_fd epfd o s).registered ↔ accept_succeeds k o) ∧
    (¬ accept_succeeds k o →
      o.accept_ret ∉ (accept_branch k server_fd epfd o s).registered ∧
      o.accept_ret ∉ (accept_branch k server_fd epfd o s).clients ∧
      ∃ acts, (accept_branch k server_fd epfd o s).trace =
        s.trace ++ acts ++ [.close o.accept_ret]) ∧
    (∃ acts, (accept_branch k server_fd epfd o s).trace = s.trace ++ acts ∧
      ∀ a ∈ acts, a.is_io = false) := by
  have hneg : ¬ o.accept_ret < 0 := by omega
  unfold accept_succeeds
  by_cases h1 : o.accept_ret < (k.SOMAXCONN : Int)
  · have h1n : ¬ o.accept_ret ≥ (k.SOMAXCONN : Int) := by omega
    by_cases h2 : o.setsockopt_ret < 0
    · have h2n : ¬ 0 ≤ o.setsockopt_ret := by omega
      simp [accept_branch, State.accepted, State.emit, State.close, hneg, h1n, h2, h2n,
        Action.is_io]
      exact ⟨[.accept server_fd, .setsockopt_nodelay o.accept_ret, .perror .setsockopt], rfl⟩
    · have h2p : 0 ≤ o.setsockopt_ret := by omega
      by_cases h3 : o.getfl_ret = -1
      · simp [accept_branch, set_blocking, State.accepted, State.emit, State.close, hneg,
          h1n, h2, h3, Action.is_io]
        exact ⟨[.accept server_fd, .setsockopt_nodelay o.accept_ret,
          .fcntl_getfl o.accept_ret, .perror .fcntl], rfl⟩
      · by_cases h4 : o.setfl_ret = 0
        · by_cases h5 : o.epoll_add_ret = 0
          · simp [accept_branch, set_blocking, State.accepted, State.emit, State.close,
              State.epoll_add, hneg, h1, h1n, h2, h2p, h3, h4, h5, Action.is_io]
          · simp [accept_branch, set_blocking, State.accepted, State.emit, State.close,
              State.epoll_add, hneg, h1n, h2, h3, h4, h5, Action.is_io]
            exact ⟨[.accept server_fd, .setsockopt_nodelay o.accept_ret,
              .fcntl_getfl o.accept_ret,
              .fcntl_setfl o.accept_ret (o.getfl_ret.lor k.O_NONBLOCK),
              .table_index o.accept_ret, .epoll_ctl_add epfd o.accept_ret,
              .perror .epoll_ctl], rfl⟩
        · simp [accept_branch, set_blocking, State.accepted, State.emit, State.close,
            hneg, h1n, h2, h3, h4, Action.is_io]
          exact ⟨[.accept server_fd, .setsockopt_nodelay o.accept_ret,
            .fcntl_getfl o.accept_ret,
            .fcntl_setfl o.accept_ret (o.getfl_ret.lor k.O_NONBLOCK), .perror .fcntl], rfl⟩
  · have h1n : o.accept_ret ≥ (k.SOMAXCONN : Int) := by omega
    simp [accept_branch, State.accepted, State.emit, State.close, hneg, h1, h1n,
      Action.is_io]
    exact ⟨[.accept server_fd, .log_rejected], rfl⟩

/-! ## The stop flag -/

/-- Delivering signals leaves the kernel state and the trace alone. -/
theorem deliver_fields (k : Consts) (sigs : List Int) (s : State) :
    (deliver k sigs s).registered = s.registered ∧
    (deliver k sigs s).clients = s.clients ∧
    (deliver k sigs s).trace = s.trace := by
  induction sigs generalizing s with
  | nil => exact ⟨rfl, rfl, rfl⟩
  | cons a t ih =>
    have h := ih (handle_signal k a s)
    have e : deliver k (a :: t) s = deliver k t (handle_signal k a s) := rfl
    rw [e]
    unfold handle_signal at h ⊢
    split_ifs at h ⊢ <;> exact h

/-- Once the flag is cleared, no signal sets it again. -/
theorem deliver_stopped (k : Consts) (sigs : List Int) (s : State)
    (h : s.is_server_running = 0) : (deliver k sigs s).is_server_running = 0 := by
  induction sigs generalizing s with
  | nil => exact h
  | cons a t ih =>
    have e : deliver k (a :: t) s = deliver k t (handle_signal k a s) := rfl
    rw [e]
    apply ih
    unfold handle_signal
    split_ifs <;> simp [h]

/-- A delivered `SIGINT` clears the flag. -/
theorem deliver_sigint (k : Consts) (sigs : List Int) (s : State)
    (h : k.SIGINT ∈ sigs) : (deliver k sigs s).is_server_running = 0 := by
  induction sigs generalizing s with
  | nil => simp at h
  | cons a t ih =>
    have e : deliver k (a :: t) s = deliver k t (handle_signal k a s) := rfl
    rw [e]
    by_cases ha : a = k.SIGINT
    · apply deliver_stopped
      simp [handle_signal, ha]
    · apply ih
      rcases List.mem_cons.mp h with h | h
      · exact absurd h.symm ha
      · exact h

/-- Signals other than `SIGINT` change nothing. -/
theorem deliver_other (k : Consts) (sigs : List Int) (s : State)
    (h : k.SIGINT ∉ sigs) : deliver k sigs s = s := by
  induction sigs generalizing s with
  | nil => rfl
  | cons a t ih =>
    have e : deliver k (a :: t) s = deliver k t (handle_signal k a s) := rfl
    have ha : a ≠ k.SIGINT := fun h0 => h (by simp [h0])
    have ht : k.SIGINT ∉ t := fun h0 => h (by simp [h0])
    rw [e, ih _ ht]
    simp [handle_signal, ha]

/-- The accept branch does not touch the flag. -/
theorem accept_branch_flag (k : Consts) (server_fd epfd : Int) (o : IterEnv) (s : State) :
    (accept_branch k server_fd epfd o s).is_server_running = s.is_server_running := by
  unfold accept_branch
  simp only [State.accepted, State.emit, State.close, State.epoll_add]
  split_ifs <;> rfl

/-- The client branch does not touch the flag. -/
theorem client_branch_flag (k : Consts) (epfd fd : Int) (o : IterEnv) (s : State) :
    (client_branch k epfd fd o s).is_server_running = s.is_server_running := by
  unfold client_branch
  simp only [State.emit, State.close, State.epoll_del]
  split_ifs <;> rfl

/-- The body of the processing loop, with its local variable expanded. -/
theorem loop_body_eq (k : Consts) (server_fd epfd : Int) (events : List Event) (i : Nat)
    (o : IterEnv) (s : State) :
    loop_body k server_fd epfd events i o s =
      if (events.getD i default).events &&& k.EPOLLIN ≠ 0 then
        if (events.getD 0 default).fd = server_fd then accept_branch k server_fd epfd o s
        else client_branch k epfd (events.getD 0 default).fd o s
      else s := rfl

/-- The processing loop does not touch the flag. -/
theorem for_loop_flag (k : Consts) (server_fd epfd : Int) (c : Cycle) (n i : Nat) (s : State) :
    (for_loop k server_fd epfd c i n s).is_server_running = s.is_server_running := by
  induction n generalizing i s with
  | zero => rfl
  | succ n ih =>
    simp only [for_loop]
    rw [ih, loop_body_eq]
    split_ifs
    · exact accept_branch_flag ..
    · exact client_branch_flag ..
    · rfl

/-- A wake cycle without `SIGINT` leaves the flag as it was. -/
theorem wake_cycle_flag (k : Consts) (server_fd epfd : Int) (c : Cycle) (s : State)
    (h : k.SIGINT ∉ c.signals) :
    (wake_cycle k server_fd epfd c s).is_server_running = s.is_server_running := by
  unfold wake_cycle
  simp only [deliver_other k c.signals _ h, for_loop_flag]
  rfl

/-- A wake cycle with `SIGINT` ends with the flag cleared. -/
theorem wake_cycle_sigint (k : Consts) (server_fd epfd : Int) (c : Cycle) (s : State)
    (h : k.SIGINT ∈ c.signals) :
    (wake_cycle k server_fd epfd c s).is_server_running = 0 := by
  unfold wake_cycle
  exact deliver_sigint k c.signals _ h

/-- With the flag cleared the loop is left at once. -/
theorem while_loop_stopped (k : Consts) (server_fd epfd : Int) (cs : List Cycle) (s : State)
    (h : s.is_server_running = 0) : while_loop k server_fd epfd cs s = (s, true) := by
  cases cs with
  | nil => simp [while_loop, h]
  | cons c cs => simp [while_loop, h]

/-- While no `SIGINT` arrives, the loop runs every wake cycle it is given. -/
theorem while_loop_append (k : Consts) (server_fd epfd : Int) (pre rest : List Cycle)
    (s : State) (hs : s.is_server_running ≠ 0) (hpre : ∀ c ∈ pre, k.SIGINT ∉ c.signals) :
    while_loop k server_fd epfd (pre ++ rest) s =
      while_loop k server_fd epfd rest (run_cycles k server_fd epfd pre s) ∧
    (run_cycles k server_fd epfd pre s).is_server_running ≠ 0 := by
  induction pre generalizing s with
  | nil => exact ⟨rfl, hs⟩
  | cons c cs ih =>
    have hc : k.SIGINT ∉ c.signals := hpre c (by simp)
    have hcs : ∀ c' ∈ cs, k.SIGINT ∉ c'.signals := fun c' h' => hpre c' (by simp [h'])
    have hflag : (wake_cycle k server_fd epfd c s).is_server_running ≠ 0 := by
      rw [wake_cycle_flag k server_fd epfd c s hc]
      exact hs
    have h := ih (wake_cycle k server_fd epfd c s) hflag hcs
    simp only [List.cons_append, while_loop, hs, ne_eq, not_false_eq_true, if_true]
    exact h

/-- Running wake cycles one list after the other. -/
theorem run_cycles_append (k : Consts) (server_fd epfd : Int) (pre rest : List Cycle)
    (s : State) :
    run_cycles k server_fd epfd (pre ++ rest) s =
      run_cycles k server_fd epfd rest (run_cycles k server_fd epfd pre s) := by
  simp [run_cycles, List.foldl_append]

/-- How `server_loop` ends when `SIGINT` is first delivered during wake cycle
`c`: the cycles up to and including `c` are run, then `epfd` is closed. -/
theorem server_loop_sigint (k : Consts) (server_fd : Int) (e : LoopEnv) (s : State)
    (pre post : List Cycle) (c : Cycle) (he : e.cycles = pre ++ c :: post)
    (hs : s.is_server_running ≠ 0) (hpre : ∀ c' ∈ pre, k.SIGINT ∉ c'.signals)
    (hc : k.SIGINT ∈ c.signals) :
    server_loop k server_fd e s =
      some ((run_cycles k server_fd e.epfd (pre ++ [c]) (loop_init server_fd e s)).emit
        [.close e.epfd]) := by
  have h0 : (loop_init server_fd e s).is_server_running ≠ 0 := hs
  obtain ⟨h1, h2⟩ := while_loop_append k server_fd e.epfd pre (c :: post) _ h0 hpre
  have h3 := wake_cycle_sigint k server_fd e.epfd c
    (run_cycles k server_fd e.epfd pre (loop_init server_fd e s)) hc
  unfold server_loop
  rw [he, h1]
  simp only [while_loop, h2, ne_eq, not_false_eq_true, if_true]
  rw [while_loop_stopped _ _ _ _ _ h3, run_cycles_append]
  rfl

/-! ## Descriptors handed out in the capacity scenario -/

/-- The search for a free descriptor stops at the first number not in the list. -/
theorem lowest_free_from_eq (l : List Int) (m : Nat) (hm : (m : Int) ∉ l) :
    ∀ (fuel c : Nat), c ≤ m → m - c ≤ fuel → (∀ j, c ≤ j → j < m → (j : Int) ∈ l) →
      lowest_free_from l fuel c = m := by
  intro fuel
  induction fuel with
  | zero =>
    intro c h1 h2 _
    have : c = m := by omega
    simp [lowest_free_from, this]
  | succ f ih =>
    intro c h1 h2 h3
    by_cases hc : c = m
    · subst hc
      simp [lowest_free_from, hm]
    · have hin : (c : Int) ∈ l := h3 c (le_refl c) (by omega)
      simp only [lowest_free_from, hin, if_true]
      exact ih (c + 1) (by omega) (by omega) (fun j hj1 hj2 => h3 j (by omega) hj2)

/-- The descriptors of the first `n` clients are the numbers `5 .. n + 4`. -/
theorem mem_client_fds (n : Nat) (x : Int) :
    x ∈ client_fds n ↔ 5 ≤ x ∧ x < (n : Int) + 5 := by
  induction n with
  | zero =>
    simp only [client_fds, List.not_mem_nil, false_iff]
    rintro ⟨h1, h2⟩
    simp only [Nat.cast_zero, zero_add] at h2
    omega
  | succ n ih =>
    simp only [client_fds, List.mem_cons, ih]
    push_cast
    constructor
    · rintro (h | ⟨h1, h2⟩) <;> omega
    · rintro ⟨h1, h2⟩
      by_cases h : x = (n : Int) + 5
      · exact Or.inl h
      · exact Or.inr ⟨h1, by omega⟩

/-- There are `n` of them. -/
theorem length_client_fds (n : Nat) : (client_fds n).length = n := by
  induction n with
  | zero => rfl
  | succ n ih => simp [client_fds, ih]

/-- They are pairwise distinct. -/
theorem nodup_client_fds (n : Nat) : (client_fds n).Nodup := by
  induction n with
  | zero => simp [client_fds]
  | succ n ih =>
    simp only [client_fds, List.nodup_cons]
    refine ⟨?_, ih⟩
    rw [mem_client_fds]
    omega

/-- With clients `5 .. n + 4` open, the next descriptor handed out is `n + 5`. -/
theorem lowest_free_clients (n : Nat) :
    lowest_free ([0, 1, 2, 3, 4] ++ client_fds n) = (n : Int) + 5 := by
  have hm : (((n + 5 : Nat)) : Int) ∉ ([0, 1, 2, 3, 4] ++ client_fds n) := by
    intro h
    rcases List.mem_append.mp h with h | h
    · simp only [List.mem_cons, List.not_mem_nil, or_false] at h
      push_cast at h
      omega
    · rw [mem_client_fds] at h
      push_cast at h
      omega
  have h := lowest_free_from_eq _ (n + 5) hm
    ([0, 1, 2, 3, 4] ++ client_fds n).length 0 (by omega)
    (by simp [length_client_fds])
    (by
      intro j _ hj
      simp only [List.mem_append, List.mem_cons, List.not_mem_nil, mem_client_fds]
      omega)
  rw [lowest_free, h]
  push_cast
  rfl

/-- A wake cycle in which only the listening descriptor 3 is readable, `accept`
returns a descriptor below `SOMAXCONN` and the option calls succeed. -/
theorem accept_cycle_registers (k : Consts) (s : State) (a : Int) (hE : k.EPOLLIN ≠ 0)
    (h0 : 0 ≤ a) (h1 : a < (k.SOMAXCONN : Int)) :
    (wake_cycle k 3 4 ⟨1, [⟨k.EPOLLIN, 3⟩], [{ accept_ret := a }], []⟩ s).clients
      = s.clients.insert a ∧
    (wake_cycle k 3 4 ⟨1, [⟨k.EPOLLIN, 3⟩], [{ accept_ret := a }], []⟩ s).registered
      = s.registered.insert a ∧
    (wake_cycle k 3 4 ⟨1, [⟨k.EPOLLIN, 3⟩], [{ accept_ret := a }], []⟩ s).is_server_running
      = s.is_server_running := by
  have hneg : ¬ a < 0 := by omega
  have hge : ¬ (k.SOMAXCONN : Int) ≤ a := by omega
  simp [wake_cycle, for_loop, loop_body_eq, deliver, hE, accept_branch,
    set_blocking, State.accepted, State.emit, State.close, State.epoll_add, h0, hneg, hge]

/-- A wake cycle in which only the listening descriptor 3 is readable and
`accept` returns a descriptor that is `SOMAXCONN` or more. -/
theorem accept_cycle_rejects (k : Consts) (s : State) (a : Int) (hE : k.EPOLLIN ≠ 0)
    (h0 : 0 ≤ a) (h1 : (k.SOMAXCONN : Int) ≤ a) (hc : a ∉ s.clients)
    (hr : a ∉ s.registered) :
    wake_cycle k 3 4 ⟨1, [⟨k.EPOLLIN, 3⟩], [{ accept_ret := a }], []⟩ s =
      { s with trace := s.trace ++
          [.epoll_wait 4 k.SOMAXCONN, .accept 3, .log_rejected, .close a] } := by
  have hneg : ¬ a < 0 := by omega
  have f1 : List.filter (fun x => !decide (x = a)) s.registered = s.registered := by
    rw [List.filter_eq_self]
    intro x hx
    have : x ≠ a := fun h => hr (h ▸ hx)
    simp [this]
  have f2 : List.filter (fun x => !decide (x = a)) s.clients = s.clients := by
    rw [List.filter_eq_self]
    intro x hx
    have : x ≠ a := fun h => hc (h ▸ hx)
    simp [this]
  simp [wake_cycle, for_loop, loop_body_eq, deliver, hE, accept_branch,
    State.accepted, State.emit, State.close, h0, hneg, h1, List.insert, hc, f1, f2]

/-- A connecting client whose descriptor is below `SOMAXCONN` is registered. -/
theorem connect_registers (k : Consts) (s : State) (a : Int) (hE : k.EPOLLIN ≠ 0)
    (ha : lowest_free ([0, 1, 2, 3, 4] ++ s.clients) = a) (h0 : 0 ≤ a)
    (h1 : a < (k.SOMAXCONN : Int)) :
    (connect k s).clients = s.clients.insert a ∧
    (connect k s).registered = s.registered.insert a ∧
    (connect k s).is_server_running = s.is_server_running := by
  subst ha
  exact accept_cycle_registers k s _ hE h0 h1

/-- A connecting client whose descriptor is `SOMAXCONN` or more is rejected and
closed, and nothing is registered. -/
theorem connect_rejects (k : Consts) (s : State) (a : Int) (hE : k.EPOLLIN ≠ 0)
    (ha : lowest_free ([0, 1, 2, 3, 4] ++ s.clients) = a) (h0 : 0 ≤ a)
    (h1 : (k.SOMAXCONN : Int) ≤ a) (hc : a ∉ s.clients) (hr : a ∉ s.registered) :
    connect k s =
      { s with trace := s.trace ++
          [.epoll_wait 4 k.SOMAXCONN, .accept 3, .log_rejected, .close a] } := by
  subst ha
  exact accept_cycle_rejects k s _ hE h0 h1 hc hr

/-- The state after `n ≤ SOMAXCONN - 5` clients have connected. -/
theorem connect_all_below (k : Consts) (hE : k.EPOLLIN ≠ 0) :
    ∀ n, n + 5 ≤ k.SOMAXCONN →
      (connect_all k n listening_state).clients = client_fds n ∧
      (connect_all k n listening_state).registered = client_fds n ++ [3] ∧
      (connect_all k n listening_state).is_server_running = 1 := by
  intro n
  induction n with
  | zero => intro _; exact ⟨rfl, rfl, rfl⟩
  | succ n ih =>
    intro hn
    obtain ⟨hc, hr, hf⟩ := ih (by omega)
    have ha : lowest_free ([0, 1, 2, 3, 4] ++ (connect_all k n listening_state).clients)
        = (n : Int) + 5 := by rw [hc, lowest_free_clients]
    obtain ⟨h1, h2, h3⟩ := connect_registers k (connect_all k n listening_state)
      ((n : Int) + 5) hE ha (by omega) (by omega)
    have hnc : ((n : Int) + 5) ∉ client_fds n := by
      rw [mem_client_fds]; omega
    have hnr : ((n : Int) + 5) ∉ client_fds n ++ [3] := by
      simp only [List.mem_append, List.mem_singleton, mem_client_fds]; omega
    refine ⟨?_, ?_, ?_⟩
    · show (connect k (connect_all k n listening_state)).clients = _
      rw [h1, hc, List.insert_of_not_mem hnc]
      rfl
    · show (connect k (connect_all k n listening_state)).registered = _
      rw [h2, hr, List.insert_of_not_mem hnr]
      rfl
    · show (connect k (connect_all k n listening_state)).is_server_running = _
      rw [h3, hf]

/-- Once descriptors `5 .. SOMAXCONN - 1` are taken, every further connection
is handed descriptor `SOMAXCONN` and is rejected: the clients and the
interest list stay as they are. -/
theorem connect_all_full (k : Consts) (hE : k.EPOLLIN ≠ 0) (n : Nat)
    (hn : n + 5 = k.SOMAXCONN) :
    ∀ m,
      ((connect_all k (n + m) listening_state).clients = client_fds n ∧
        (connect_all k (n + m) listening_state).registered = client_fds n ++ [3]) ∧
      connect_all k (n + m + 1) listening_state =
        { connect_all k (n + m) listening_state with
          trace := (connect_all k (n + m) listening_state).trace ++
            [.epoll_wait 4 k.SOMAXCONN, .accept 3, .log_rejected,
             .close (k.SOMAXCONN : Int)] } := by
  have step : ∀ t : Nat,
      (connect_all k t listening_state).clients = client_fds n →
      (connect_all k t listening_state).registered = client_fds n ++ [3] →
      connect_all k (t + 1) listening_state =
        { connect_all k t listening_state with
          trace := (connect_all k t listening_state).trace ++
            [.epoll_wait 4 k.SOMAXCONN, .accept 3, .log_rejected,
             .close (k.SOMAXCONN : Int)] } := by
    intro t hc hr
    have ha : lowest_free ([0, 1, 2, 3, 4] ++ (connect_all k t listening_state).clients)
        = (k.SOMAXCONN : Int) := by
      rw [hc, lowest_free_clients, ← hn]; push_cast; rfl
    have hnc : (k.SOMAXCONN : Int) ∉ (connect_all k t listening_state).clients := by
      rw [hc, mem_client_fds]; omega
    have hnr : (k.SOMAXCONN : Int) ∉ (connect_all k t listening_state).registered := by
      rw [hr]
      simp only [List.mem_append, List.mem_singleton, mem_client_fds]; omega
    exact connect_rejects k _ _ hE ha (by omega) (le_refl _) hnc hnr
  intro m
  induction m with
  | zero =>
    obtain ⟨hc, hr, _⟩ := connect_all_below k hE n (by omega)
    exact ⟨⟨hc, hr⟩, step n hc hr⟩
  | succ m ih =>
    obtain ⟨⟨hc, hr⟩, hstep⟩ := ih
    have hc2 : (connect_all k (n + (m + 1)) listening_state).clients = client_fds n := by
      show (connect_all k (n + m + 1) listening_state).clients = _
      rw [hstep]
      exact hc
    have hr2 : (connect_all k (n + (m + 1)) listening_state).registered
        = client_fds n ++ [3] := by
      show (connect_all k (n + m + 1) listening_state).registered = _
      rw [hstep]
      exact hr
    exact ⟨⟨hc2, hr2⟩, step _ hc2 hr2⟩

/-! ## The registration invariant is kept by every step -/

/-- Closing a descriptor other than the listening one, whether or not it was
registered, keeps the registration invariant. -/
theorem inv_reject (k : Consts) (server_fd c : Int) (s : State) (f : Int) (t : List Action)
    (hI : registration_invariant k server_fd s) (hc : c ≠ server_fd) :
    registration_invariant k server_fd
      ⟨f, s.registered.filter (fun x => x ≠ c),
        (s.clients.insert c).filter (fun x => x ≠ c), t⟩ := by
  obtain ⟨hI1, hI2⟩ := hI
  refine ⟨?_, ?_⟩
  · intro x
    simp only [List.mem_filter, List.mem_insert_iff, hI1 x, decide_eq_true_eq]
    constructor
    · rintro ⟨h | h, hne⟩
      · exact Or.inl h
      · exact Or.inr ⟨Or.inr h, hne⟩
    · rintro (h | ⟨h | h, hne⟩)
      · exact ⟨Or.inl h, fun hx => hc (hx ▸ h)⟩
      · exact absurd h hne
      · exact ⟨Or.inr h, hne⟩
  · intro x hx
    exact hI2 x (List.mem_filter.mp hx).1

/-- Closing a descriptor other than the listening one keeps the registration
invariant. -/
theorem inv_close (k : Consts) (server_fd c : Int) (s : State) (f : Int) (t : List Action)
    (hI : registration_invariant k server_fd s) (hc : c ≠ server_fd) :
    registration_invariant k server_fd
      ⟨f, s.registered.filter (fun x => x ≠ c), s.clients.filter (fun x => x ≠ c), t⟩ := by
  obtain ⟨hI1, hI2⟩ := hI
  refine ⟨?_, ?_⟩
  · intro x
    simp only [List.mem_filter, hI1 x, decide_eq_true_eq]
    constructor
    · rintro ⟨h | h, hne⟩
      · exact Or.inl h
      · exact Or.inr ⟨h, hne⟩
    · rintro (h | ⟨h, hne⟩)
      · exact ⟨Or.inl h, fun hx => hc (hx ▸ h)⟩
      · exact ⟨Or.inr h, hne⟩
  · intro x hx
    exact hI2 x (List.mem_filter.mp hx).1

/-- Registering an accepted descriptor that is a valid index keeps the
registration invariant. -/
theorem inv_register (k : Consts) (server_fd c : Int) (s : State) (f : Int) (t : List Action)
    (hI : registration_invariant k server_fd s) (h0 : 0 ≤ c) (h1 : c < (k.SOMAXCONN : Int)) :
    registration_invariant k server_fd ⟨f, s.registered.insert c, s.clients.insert c, t⟩ := by
  obtain ⟨hI1, hI2⟩ := hI
  refine ⟨?_, ?_⟩
  · intro x
    simp only [List.mem_insert_iff, hI1 x]
    tauto
  · intro x hx
    rcases List.mem_insert_iff.mp hx with h | h
    · subst h; exact ⟨h0, h1⟩
    · exact hI2 x h

/-- The accept branch keeps the registration invariant and uses only valid
table indexes, provided `accept` does not return the listening descriptor. -/
theorem accept_branch_good (k : Consts) (server_fd epfd : Int) (o : IterEnv) (s : State)
    (hI : registration_invariant k server_fd s) (hB : indices_in_bounds k s)
    (ho : o.accept_ret ≠ server_fd) :
    registration_invariant k server_fd (accept_branch k server_fd epfd o s) ∧
    indices_in_bounds k (accept_branch k server_fd epfd o s) := by
  have hidx : ∀ (acts : List Action),
      (∀ i, Action.table_index i ∈ acts → i = o.accept_ret ∧
        0 ≤ o.accept_ret ∧ o.accept_ret < (k.SOMAXCONN : Int)) →
      ∀ i, Action.table_index i ∈ s.trace ++ acts → 0 ≤ i ∧ i < (k.SOMAXCONN : Int) := by
    intro acts ha i hi
    rcases List.mem_append.mp hi with h | h
    · exact hB i h
    · obtain ⟨rfl, h2⟩ := ha i h
      exact h2
  by_cases h0 : o.accept_ret < 0
  · have h0n : ¬ 0 ≤ o.accept_ret := by omega
    simp only [accept_branch, State.accepted, State.emit, h0, h0n, if_true, if_false]
    refine ⟨hI, ?_⟩
    unfold indices_in_bounds
    simp only [List.append_assoc]
    exact hidx _ (by simp)
  have h0p : 0 ≤ o.accept_ret := by omega
  by_cases h1 : o.accept_ret ≥ (k.SOMAXCONN : Int)
  · simp only [accept_branch, State.accepted, State.emit, State.close, h0, h0p, h1, if_true,
      if_false]
    refine ⟨inv_reject k server_fd _ s _ _ hI ho, ?_⟩
    unfold indices_in_bounds
    simp only [List.append_assoc]
    exact hidx _ (by simp)
  have h1p : o.accept_ret < (k.SOMAXCONN : Int) := by omega
  by_cases h2 : o.setsockopt_ret < 0
  · simp only [accept_branch, State.accepted, State.emit, State.close, h0, h0p, h1, h2,
      if_true, if_false]
    refine ⟨inv_reject k server_fd _ s _ _ hI ho, ?_⟩
    unfold indices_in_bounds
    simp only [List.append_assoc]
    exact hidx _ (by simp)
  by_cases h3 : o.getfl_ret = -1
  · simp only [accept_branch, set_blocking, State.accepted, State.emit, State.close, h0, h0p,
      h1, h2, h3, if_true, if_false, ne_eq, not_true_eq_false, not_false_eq_true]
    refine ⟨inv_reject k server_fd _ s _ _ hI ho, ?_⟩
    unfold indices_in_bounds
    simp only [List.append_assoc]
    exact hidx _ (by simp)
  by_cases h4 : o.setfl_ret = 0
  · by_cases h5 : o.epoll_add_ret = 0
    · simp only [accept_branch, set_blocking, State.accepted, State.emit, State.close,
        State.epoll_add, h0, h0p, h1, h2, h3, h4, h5, if_true, if_false, ne_eq,
        not_true_eq_false, not_false_eq_true]
      refine ⟨inv_register k server_fd _ s _ _ hI h0p h1p, ?_⟩
      unfold indices_in_bounds
      simp only [List.append_assoc]
      exact hidx _ (by simp [h0p, h1p])
    · simp only [accept_branch, set_blocking, State.accepted, State.emit, State.close,
        State.epoll_add, h0, h0p, h1, h2, h3, h4, h5, if_true, if_false, ne_eq,
        not_true_eq_false, not_false_eq_true]
      refine ⟨inv_reject k server_fd _ s _ _ hI ho, ?_⟩
      unfold indices_in_bounds
      simp only [List.append_assoc]
      exact hidx _ (by simp [h0p, h1p])
  · simp only [accept_branch, set_blocking, State.accepted, State.emit, State.close, h0, h0p,
      h1, h2, h3, h4, if_true, if_false, ne_eq, not_true_eq_false, not_false_eq_true]
    refine ⟨inv_reject k server_fd _ s _ _ hI ho, ?_⟩
    unfold indices_in_bounds
    simp only [List.append_assoc]
    exact hidx _ (by simp)

/-- The function `handle_event_read` uses no index on `socket_events`. -/
theorem handle_event_read_no_index (k : Consts) (stack : Nat → Nat) (fd : Int)
    (r : RecvOutcome) (i : Int) :
    Action.table_index i ∉ (handle_event_read k stack fd r).2 := by
  unfold handle_event_read
  simp only []
  split_ifs <;> simp

/-- The client branch keeps the registration invariant and uses only valid
table indexes, when its descriptor is a valid index other than the listening
descriptor. -/
theorem client_branch_good (k : Consts) (server_fd epfd a : Int) (o : IterEnv) (s : State)
    (hI : registration_invariant k server_fd s) (hB : indices_in_bounds k s)
    (ha : a ≠ server_fd) (h0 : 0 ≤ a) (h1 : a < (k.SOMAXCONN : Int)) :
    registration_invariant k server_fd (client_branch k epfd a o s) ∧
    indices_in_bounds k (client_branch k epfd a o s) := by
  have hno := handle_event_read_no_index k o.stack a o.recv
  by_cases hr : (handle_event_read k o.stack a o.recv).1 = -1
  · simp only [client_branch, hr, if_true, State.emit, State.epoll_del, State.close,
      List.filter_filter, Bool.and_self]
    refine ⟨inv_close k server_fd a s _ _ hI ha, ?_⟩
    intro i hi
    simp only [List.append_assoc, List.mem_append, List.mem_cons, List.not_mem_nil,
      or_false, reduceCtorEq, Action.table_index.injEq, false_or] at hi
    rcases hi with h | h | h
    · exact hB i h
    · exact absurd h (hno i)
    · subst h; exact ⟨h0, h1⟩
  · simp only [client_branch, hr, if_false, State.emit]
    refine ⟨hI, ?_⟩
    intro i hi
    rcases List.mem_append.mp hi with h | h
    · exact hB i h
    · exact absurd h (hno i)

/-- One iteration of the processing loop keeps the registration invariant and
uses only valid table indexes. -/
theorem loop_body_good (k : Consts) (server_fd epfd : Int) (events : List Event) (i : Nat)
    (o : IterEnv) (s : State)
    (hI : registration_invariant k server_fd s) (hB : indices_in_bounds k s)
    (ho : o.accept_ret ≠ server_fd)
    (h0 : 0 ≤ (events.getD 0 default).fd)
    (h1 : (events.getD 0 default).fd < (k.SOMAXCONN : Int)) :
    registration_invariant k server_fd (loop_body k server_fd epfd events i o s) ∧
    indices_in_bounds k (loop_body k server_fd epfd events i o s) := by
  rw [loop_body_eq]
  split_ifs with hE ha
  · exact accept_branch_good k server_fd epfd o s hI hB ho
  · exact client_branch_good k server_fd epfd _ o s hI hB ha h0 h1
  · exact ⟨hI, hB⟩

/-- An `accept` outcome taken from the list, or the default one past its end,
does not return the given non-negative descriptor. -/
theorem getD_accept_ne (iters : List IterEnv) (fd : Int) (h0 : 0 ≤ fd)
    (h : ∀ o ∈ iters, o.accept_ret ≠ fd) (i : Nat) :
    (iters.getD i default).accept_ret ≠ fd := by
  by_cases hi : i < iters.length
  · have hm : iters.getD i default ∈ iters := by
      rw [List.getD_eq_getElem _ _ hi]
      exact List.getElem_mem hi
    exact h _ hm
  · rw [List.getD_eq_default _ _ (by omega)]
    show (-1 : Int) ≠ fd
    omega

/-- The processing loop keeps the registration invariant and uses only valid
table indexes. -/
theorem for_loop_good (k : Consts) (server_fd epfd : Int) (c : Cycle)
    (hs : 0 ≤ server_fd) (ho : ∀ o ∈ c.iters, o.accept_ret ≠ server_fd)
    (h0 : 0 ≤ (c.events.getD 0 default).fd)
    (h1 : (c.events.getD 0 default).fd < (k.SOMAXCONN : Int)) :
    ∀ (n i : Nat) (s : State),
      registration_invariant k server_fd s → indices_in_bounds k s →
      registration_invariant k server_fd (for_loop k server_fd epfd c i n s) ∧
      indices_in_bounds k (for_loop k server_fd epfd c i n s) := by
  intro n
  induction n with
  | zero => intro i s hI hB; exact ⟨hI, hB⟩
  | succ n ih =>
    intro i s hI hB
    obtain ⟨hI2, hB2⟩ := loop_body_good k server_fd epfd c.events i (c.iters.getD i default) s
      hI hB (getD_accept_ne c.iters server_fd hs ho i) h0 h1
    exact ih (i + 1) _ hI2 hB2

/-- A wake cycle keeps the registration invariant and uses only valid table
indexes, when the events reported carry registered descriptors. -/
theorem wake_cycle_good (k : Consts) (server_fd epfd : Int) (c : Cycle) (s : State)
    (hs : 0 ≤ server_fd) (ho : ∀ o ∈ c.iters, o.accept_ret ≠ server_fd)
    (hev : ∀ i, i < c.num_events.toNat → (c.events.getD i default).fd ∈ s.registered)
    (hI : registration_invariant k server_fd s) (hB : indices_in_bounds k s) :
    ∀ j, j ≤ c.num_events.toNat →
      (registration_invariant k server_fd
        (for_loop k server_fd epfd c 0 j (s.emit [.epoll_wait epfd k.SOMAXCONN])) ∧
      indices_in_bounds k
        (for_loop k server_fd epfd c 0 j (s.emit [.epoll_wait epfd k.SOMAXCONN]))) ∧
      (registration_invariant k server_fd (wake_cycle k server_fd epfd c s) ∧
        indices_in_bounds k (wake_cycle k server_fd epfd c s)) := by
  have hI0 : registration_invariant k server_fd (s.emit [.epoll_wait epfd k.SOMAXCONN]) := hI
  have hB0 : indices_in_bounds k (s.emit [.epoll_wait epfd k.SOMAXCONN]) := by
    intro i hi
    rcases List.mem_append.mp hi with h | h
    · exact hB i h
    · simp at h
  have hall : ∀ j, j ≤ c.num_events.toNat →
      registration_invariant k server_fd
        (for_loop k server_fd epfd c 0 j (s.emit [.epoll_wait epfd k.SOMAXCONN])) ∧
      indices_in_bounds k
        (for_loop k server_fd epfd c 0 j (s.emit [.epoll_wait epfd k.SOMAXCONN])) := by
    intro j hj
    by_cases hz : c.num_events.toNat = 0
    · have : j = 0 := by omega
      subst this
      exact ⟨hI0, hB0⟩
    · have hm := hev 0 (by omega)
      obtain ⟨hb0, hb1⟩ := hI.2 _ hm
      exact for_loop_good k server_fd epfd c hs ho hb0 hb1 j 0 _ hI0 hB0
  intro j hj
  refine ⟨hall j hj, ?_⟩
  obtain ⟨hI3, hB3⟩ := hall c.num_events.toNat (le_refl _)
  obtain ⟨d1, d2, d3⟩ := deliver_fields k c.signals
    (for_loop k server_fd epfd c 0 c.num_events.toNat (s.emit [.epoll_wait epfd k.SOMAXCONN]))
  unfold wake_cycle
  refine ⟨⟨?_, ?_⟩, ?_⟩
  · intro x
    simp only [d1, d2]
    exact hI3.1 x
  · intro x hx
    simp only [d1] at hx
    exact hI3.2 x hx
  · intro i hi
    simp only [d3] at hi
    exact hB3 i hi

/-- While the flag is set, the loop runs the next wake cycle. -/
theorem while_loop_running (k : Consts) (server_fd epfd : Int) (c : Cycle) (cs : List Cycle)
    (s : State) (h : s.is_server_running ≠ 0) :
    while_loop k server_fd epfd (c :: cs) s =
      while_loop k server_fd epfd cs (wake_cycle k server_fd epfd c s) := by
  simp only [while_loop, h, ne_eq, not_false_eq_true, if_true]

/-- The loop keeps the registration invariant and uses only valid table
indexes, whatever the number of wake cycles. -/
theorem while_loop_good (k : Consts) (server_fd epfd : Int) (hs : 0 ≤ server_fd) :
    ∀ (cs : List Cycle) (s : State),
      registration_invariant k server_fd s → indices_in_bounds k s →
      accept_avoids server_fd cs → reports_registered k server_fd epfd cs s →
      registration_invariant k server_fd (while_loop k server_fd epfd cs s).1 ∧
      indices_in_bounds k (while_loop k server_fd epfd cs s).1 := by
  intro cs
  induction cs with
  | nil => intro s hI hB _ _; exact ⟨hI, hB⟩
  | cons c cs ih =>
    intro s hI hB ha hr
    by_cases hrun : s.is_server_running = 0
    · rw [while_loop_stopped _ _ _ _ _ hrun]
      exact ⟨hI, hB⟩
    · obtain ⟨hev, hrest⟩ := hr hrun
      have hc : ∀ o ∈ c.iters, o.accept_ret ≠ server_fd := ha c (by simp)
      have hcs : accept_avoids server_fd cs := fun c' h' => ha c' (by simp [h'])
      obtain ⟨hI2, hB2⟩ :=
        (wake_cycle_good k server_fd epfd c s hs hc hev hI hB 0 (Nat.zero_le _)).2
      rw [while_loop_running _ _ _ _ _ _ hrun]
      exact ih _ hI2 hB2 hcs hrest

/-- The guarantee of `epoll_wait` along a run holds along every shorter run. -/
theorem reports_registered_take (k : Consts) (server_fd epfd : Int) :
    ∀ (cs : List Cycle) (n : Nat) (s : State),
      reports_registered k server_fd epfd cs s →
      reports_registered k server_fd epfd (cs.take n) s := by
  intro cs
  induction cs with
  | nil => intro n s _; simp [reports_registered]
  | cons c cs ih =>
    intro n s h
    cases n with
    | zero => simp [reports_registered]
    | succ n =>
      simp only [List.take_succ_cons, reports_registered]
      intro hrun
      obtain ⟨h1, h2⟩ := h hrun
      exact ⟨h1, ih n _ h2⟩

/-- The guarantee of `epoll_wait` for wake cycle number `n`, at the state in
which that cycle starts. -/
theorem reports_registered_at (k : Consts) (server_fd epfd : Int) :
    ∀ (cs : List Cycle) (n : Nat) (hn : n < cs.length) (s : State),
      reports_registered k server_fd epfd cs s →
      (while_loop k server_fd epfd (cs.take n) s).1.is_server_running ≠ 0 →
      ∀ i, i < (cs[n]).num_events.toNat →
        ((cs[n]).events.getD i default).fd ∈
          (while_loop k server_fd epfd (cs.take n) s).1.registered := by
  intro cs
  induction cs with
  | nil => intro n hn; simp at hn
  | cons c cs ih =>
    intro n hn s h hrun
    cases n with
    | zero =>
      simp only [List.take_zero, while_loop] at hrun ⊢
      exact (h hrun).1
    | succ n =>
      by_cases hs : s.is_server_running = 0
      · rw [List.take_succ_cons, while_loop_stopped _ _ _ _ _ hs] at hrun
        exact absurd hs hrun
      · rw [List.take_succ_cons, while_loop_running _ _ _ _ _ _ hs] at hrun
        simp only [List.take_succ_cons, List.getElem_cons_succ]
        rw [while_loop_running _ _ _ _ _ _ hs]
        exact ih n (by simpa using hn) _ (h hs).2 hrun

/-! ## Descriptors that are not registered are not served -/

/-- Nothing done is quiet. -/
theorem quiet_refl (fd : Int) (s : State) : quiet fd s s :=
  ⟨[], by simp, by simp⟩

/-- Quiet steps compose. -/
theorem quiet_trans (fd : Int) (s s1 s2 : State) (h1 : quiet fd s s1) (h2 : quiet fd s1 s2) :
    quiet fd s s2 := by
  obtain ⟨a1, e1, q1⟩ := h1
  obtain ⟨a2, e2, q2⟩ := h2
  refine ⟨a1 ++ a2, by rw [e2, e1, List.append_assoc], ?_⟩
  intro a ha
  rcases List.mem_append.mp ha with h | h
  · exact q1 a h
  · exact q2 a h

/-- The function `handle_event_read` performs `recv` and `send` on its own descriptor
only. -/
theorem handle_event_read_touches (k : Consts) (stack : Nat → Nat) (fd c : Int)
    (r : RecvOutcome) (hc : fd ≠ c) :
    ∀ a ∈ (handle_event_read k stack fd r).2, ¬ a.touches c := by
  unfold handle_event_read
  simp only []
  split_ifs <;> simp [Action.touches, hc]

/-- The accept branch performs no `recv` and no `send`, and registers at most
the descriptor returned by `accept`. -/
theorem accept_branch_quiet (k : Consts) (server_fd epfd c : Int) (o : IterEnv) (s : State)
    (hc : c ∉ s.registered) (ho : o.accept_ret ≠ c) :
    quiet c s (accept_branch k server_fd epfd o s) ∧
    c ∉ (accept_branch k server_fd epfd o s).registered := by
  have hf : c ∉ s.registered.filter (fun x => x ≠ o.accept_ret) :=
    fun h => hc (List.mem_filter.mp h).1
  have hi : c ∉ s.registered.insert o.accept_ret := by
    intro h
    rcases List.mem_insert_iff.mp h with h | h
    · exact ho h.symm
    · exact hc h
  unfold quiet
  by_cases h0 : o.accept_ret < 0
  · have h0n : ¬ 0 ≤ o.accept_ret := by omega
    simp only [accept_branch, State.accepted, State.emit, h0, h0n, if_true, if_false,
      List.append_assoc]
    exact ⟨⟨_, rfl, by simp [Action.touches]⟩, hc⟩
  have h0p : 0 ≤ o.accept_ret := by omega
  by_cases h1 : o.accept_ret ≥ (k.SOMAXCONN : Int)
  · simp only [accept_branch, State.accepted, State.emit, State.close, h0, h0p, h1, if_true,
      if_false, List.append_assoc]
    exact ⟨⟨_, rfl, by simp [Action.touches]⟩, hf⟩
  by_cases h2 : o.setsockopt_ret < 0
  · simp only [accept_branch, State.accepted, State.emit, State.close, h0, h0p, h1, h2,
      if_true, if_false, List.append_assoc]
    exact ⟨⟨_, rfl, by simp [Action.touches]⟩, hf⟩
  by_cases h3 : o.getfl_ret = -1
  · simp only [accept_branch, set_blocking, State.accepted, State.emit, State.close, h0, h0p,
      h1, h2, h3, if_true, if_false, ne_eq, not_true_eq_false, not_false_eq_true,
      List.append_assoc]
    exact ⟨⟨_, rfl, by simp [Action.touches]⟩, hf⟩
  by_cases h4 : o.setfl_ret = 0
  · by_cases h5 : o.epoll_add_ret = 0
    · simp only [accept_branch, set_blocking, State.accepted, State.emit, State.close,
        State.epoll_add, h0, h0p, h1, h2, h3, h4, h5, if_true, if_false, ne_eq,
        not_true_eq_false, not_false_eq_true, List.append_assoc]
      exact ⟨⟨_, rfl, by simp [Action.touches]⟩, hi⟩
    · simp only [accept_branch, set_blocking, State.accepted, State.emit, State.close,
        State.epoll_add, h0, h0p, h1, h2, h3, h4, h5, if_true, if_false, ne_eq,
        not_true_eq_false, not_false_eq_true, List.append_assoc]
      exact ⟨⟨_, rfl, by simp [Action.touches]⟩, hf⟩
  · simp only [accept_branch, set_blocking, State.accepted, State.emit, State.close, h0, h0p,
      h1, h2, h3, h4, if_true, if_false, ne_eq, not_true_eq_false, not_false_eq_true,
      List.append_assoc]
    exact ⟨⟨_, rfl, by simp [Action.touches]⟩, hf⟩

/-- The client branch performs `recv` and `send` on its own descriptor only, and
registers nothing. -/
theorem client_branch_quiet (k : Consts) (epfd a c : Int) (o : IterEnv) (s : State)
    (hc : c ∉ s.registered) (ha : a ≠ c) :
    quiet c s (client_branch k epfd a o s) ∧
    c ∉ (client_branch k epfd a o s).registered := by
  have ht := handle_event_read_touches k o.stack a c o.recv ha
  have hf : c ∉ (s.registered.filter (fun x => x ≠ a)).filter (fun x => x ≠ a) :=
    fun h => hc (List.mem_filter.mp (List.mem_filter.mp h).1).1
  unfold quiet client_branch
  simp only [State.emit, State.epoll_del, State.close, List.append_assoc]
  split_ifs
  · refine ⟨⟨_, rfl, ?_⟩, hf⟩
    intro x hx
    rcases List.mem_append.mp hx with h | h
    · exact ht x h
    · simp only [List.mem_cons, List.mem_append, List.not_mem_nil, or_false] at h
      rcases h with h | (h | h) | h <;> subst h <;> simp [Action.touches]
  · exact ⟨⟨_, rfl, ht⟩, hc⟩

/-- One iteration of the processing loop performs no `recv` or `send` on a
descriptor that is neither registered nor carried by slot 0, and does not
register it unless `accept` returns it. -/
theorem loop_body_quiet (k : Consts) (server_fd epfd c : Int) (events : List Event) (i : Nat)
    (o : IterEnv) (s : State) (hc : c ∉ s.registered) (ho : o.accept_ret ≠ c)
    (hev : (events.getD 0 default).fd = server_fd ∨ (events.getD 0 default).fd ≠ c) :
    quiet c s (loop_body k server_fd epfd events i o s) ∧
    c ∉ (loop_body k server_fd epfd events i o s).registered := by
  rw [loop_body_eq]
  split_ifs with hE ha
  · exact accept_branch_quiet k server_fd epfd c o s hc ho
  · rcases hev with h | h
    · exact absurd h ha
    · exact client_branch_quiet k epfd _ c o s hc h
  · exact ⟨quiet_refl c s, hc⟩

/-- The processing loop, from index `i` on, likewise. -/
theorem for_loop_quiet (k : Consts) (server_fd epfd c : Int) (cy : Cycle)
    (hev : (cy.events.getD 0 default).fd = server_fd ∨ (cy.events.getD 0 default).fd ≠ c) :
    ∀ (n i : Nat) (s : State), c ∉ s.registered →
      (∀ j, i ≤ j → (cy.iters.getD j default).accept_ret ≠ c) →
      quiet c s (for_loop k server_fd epfd cy i n s) ∧
      c ∉ (for_loop k server_fd epfd cy i n s).registered := by
  intro n
  induction n with
  | zero => intro i s hc _; exact ⟨quiet_refl c s, hc⟩
  | succ n ih =>
    intro i s hc ho
    obtain ⟨q1, r1⟩ := loop_body_quiet k server_fd epfd c cy.events i
      (cy.iters.getD i default) s hc (ho i (le_refl i)) hev
    obtain ⟨q2, r2⟩ := ih (i + 1) _ r1 (fun j hj => ho j (by omega))
    exact ⟨quiet_trans c _ _ _ q1 q2, r2⟩

/-- Delivering signals is quiet and registers nothing. -/
theorem deliver_quiet (k : Consts) (c : Int) (sigs : List Int) (s : State)
    (hc : c ∉ s.registered) :
    quiet c s (deliver k sigs s) ∧ c ∉ (deliver k sigs s).registered := by
  obtain ⟨d1, _, d3⟩ := deliver_fields k sigs s
  refine ⟨⟨[], by simp [d3], by simp⟩, ?_⟩
  rw [d1]
  exact hc

/-- A wake cycle performs no `recv` or `send` on a descriptor that is not
registered when the wait returns, and does not register it unless `accept`
returns it. -/
theorem wake_cycle_quiet (k : Consts) (server_fd epfd c : Int) (cy : Cycle) (s : State)
    (hc : c ∉ s.registered)
    (ho : ∀ j, (cy.iters.getD j default).accept_ret ≠ c)
    (hev : ∀ i, i < cy.num_events.toNat → (cy.events.getD i default).fd ∈ s.registered) :
    quiet c s (wake_cycle k server_fd epfd cy s) ∧
    c ∉ (wake_cycle k server_fd epfd cy s).registered := by
  have q0 : quiet c s (s.emit [.epoll_wait epfd k.SOMAXCONN]) :=
    ⟨_, rfl, by simp [Action.touches]⟩
  have hc0 : c ∉ (s.emit [.epoll_wait epfd k.SOMAXCONN]).registered := hc
  have hfor : quiet c (s.emit [.epoll_wait epfd k.SOMAXCONN])
        (for_loop k server_fd epfd cy 0 cy.num_events.toNat
          (s.emit [.epoll_wait epfd k.SOMAXCONN])) ∧
      c ∉ (for_loop k server_fd epfd cy 0 cy.num_events.toNat
          (s.emit [.epoll_wait epfd k.SOMAXCONN])).registered := by
    by_cases hz : cy.num_events.toNat = 0
    · rw [hz]
      exact ⟨quiet_refl c _, hc0⟩
    · have hm := hev 0 (by omega)
      have hne : (cy.events.getD 0 default).fd ≠ c := fun h => hc (h ▸ hm)
      exact for_loop_quiet k server_fd epfd c cy (Or.inr hne) _ 0 _ hc0 (fun j _ => ho j)
  obtain ⟨q1, r1⟩ := hfor
  obtain ⟨q2, r2⟩ := deliver_quiet k c cy.signals _ r1
  exact ⟨quiet_trans c _ _ _ q0 (quiet_trans c _ _ _ q1 q2), r2⟩

/-- The loop performs no `recv` or `send` on a descriptor that is not registered
and that no later `accept` returns. -/
theorem while_loop_quiet (k : Consts) (server_fd epfd c : Int) (h0 : 0 ≤ c) :
    ∀ (cs : List Cycle) (s : State), c ∉ s.registered → accept_avoids c cs →
      reports_registered k server_fd epfd cs s →
      quiet c s (while_loop k server_fd epfd cs s).1 := by
  intro cs
  induction cs with
  | nil => intro s _ _ _; exact quiet_refl c s
  | cons cy cs ih =>
    intro s hc ha hr
    by_cases hrun : s.is_server_running = 0
    · rw [while_loop_stopped _ _ _ _ _ hrun]
      exact quiet_refl c s
    · obtain ⟨hev, hrest⟩ := hr hrun
      have hcy : ∀ j, (cy.iters.getD j default).accept_ret ≠ c :=
        getD_accept_ne cy.iters c h0 (ha cy (by simp))
      obtain ⟨q1, r1⟩ := wake_cycle_quiet k server_fd epfd c cy s hc hcy hev
      rw [while_loop_running _ _ _ _ _ _ hrun]
      exact quiet_trans c _ _ _ q1
        (ih _ r1 (fun c' h' => ha c' (by simp [h'])) hrest)

/-- The registration invariant of `server_loop`, when the listening descriptor
has been added to the epoll instance.  When `0 ≤ server_fd < SOMAXCONN`, the
epoll instance starts empty and `epoll_ctl(ADD, server_fd)` returned 0, then
for every sequence of outcomes the kernel can produce (`accept` never returns
the open listening descriptor, `epoll_wait` reports registered descriptors
only): after every number `n` of wake cycles, and after every number `j` of
iterations of the processing loop inside the next cycle, the interest list
is exactly `server_fd` together with the accepted clients that are still
open, all of its members lie in `[0, SOMAXCONN)`, and every index used on
`socket_events` so far lies in `[0, SOMAXCONN)`.  The index `server_fd` itself
is used without any check. -/
theorem registration_invariant_kept (k : Consts) (server_fd : Int) (e : LoopEnv) (s : State) :
    Action.table_index server_fd ∈ (loop_init server_fd e s).trace ∧
    (0 ≤ server_fd → server_fd < (k.SOMAXCONN : Int) →
      s.registered = [] → s.clients = [] → indices_in_bounds k s → e.add_ret = 0 →
      accept_avoids server_fd e.cycles →
      reports_registered k server_fd e.epfd e.cycles (loop_init server_fd e s) →
      (∀ n,
        registration_invariant k server_fd
          (while_loop k server_fd e.epfd (e.cycles.take n) (loop_init server_fd e s)).1 ∧
        indices_in_bounds k
          (while_loop k server_fd e.epfd (e.cycles.take n) (loop_init server_fd e s)).1) ∧
      (∀ (n : Nat) (hn : n < e.cycles.length),
        (while_loop k server_fd e.epfd (e.cycles.take n)
          (loop_init server_fd e s)).1.is_server_running ≠ 0 →
        ∀ j, j ≤ (e.cycles[n]).num_events.toNat →
          registration_invariant k server_fd
            (for_loop k server_fd e.epfd (e.cycles[n]) 0 j
              ((while_loop k server_fd e.epfd (e.cycles.take n)
                (loop_init server_fd e s)).1.emit [.epoll_wait e.epfd k.SOMAXCONN])) ∧
          indices_in_bounds k
            (for_loop k server_fd e.epfd (e.cycles[n]) 0 j
              ((while_loop k server_fd e.epfd (e.cycles.take n)
                (loop_init server_fd e s)).1.emit [.epoll_wait e.epfd k.SOMAXCONN])))) := by
  refine ⟨by simp [loop_init, State.epoll_add, State.emit], ?_⟩
  intro h0 h1 hr hc hB hadd hav hrep
  have hI0 : registration_invariant k server_fd (loop_init server_fd e s) := by
    refine ⟨?_, ?_⟩
    · intro x
      simp [loop_init, State.epoll_add, State.emit, hadd, hr, hc]
    · intro x hx
      simp only [loop_init, State.epoll_add, State.emit, hadd, hr, if_true,
        List.insert_nil, List.mem_singleton] at hx
      subst hx
      exact ⟨h0, h1⟩
  have hB0 : indices_in_bounds k (loop_init server_fd e s) := by
    intro i hi
    simp only [loop_init, State.epoll_add, State.emit, List.append_assoc, List.mem_append,
      List.mem_cons, List.not_mem_nil, or_false, reduceCtorEq, Action.table_index.injEq,
      false_or] at hi
    rcases hi with h | h
    · exact hB i h
    · subst h
      exact ⟨h0, h1⟩
  have hpre : ∀ n,
      registration_invariant k server_fd
        (while_loop k server_fd e.epfd (e.cycles.take n) (loop_init server_fd e s)).1 ∧
      indices_in_bounds k
        (while_loop k server_fd e.epfd (e.cycles.take n) (loop_init server_fd e s)).1 := by
    intro n
    exact while_loop_good k server_fd e.epfd h0 _ _ hI0 hB0
      (fun c hc' => hav c (List.mem_of_mem_take hc'))
      (reports_registered_take k server_fd e.epfd _ n _ hrep)
  refine ⟨hpre, ?_⟩
  intro n hn hrun j hj
  obtain ⟨hIn, hBn⟩ := hpre n
  have hev := reports_registered_at k server_fd e.epfd e.cycles n hn _ hrep hrun
  exact (wake_cycle_good k server_fd e.epfd (e.cycles[n]) _ h0
    (hav _ (List.getElem_mem hn)) hev hIn hBn j hj).1

/-- An instance of `registration_invariant_kept`: on Linux with listening
descriptor 3, client 5 connects and then closes; the hypotheses hold and the
invariant holds after both wake cycles. -/
theorem registration_invariant_kept_instance :
    ((0 : Int) ≤ 3 ∧ (3 : Int) < (linux.SOMAXCONN : Int) ∧
      accept_avoids 3 connect_then_close.cycles ∧
      reports_registered linux 3 4 connect_then_close.cycles
        (loop_init 3 connect_then_close initial_state)) ∧
    registration_invariant linux 3
      (while_loop linux 3 4 (connect_then_close.cycles.take 2)
        (loop_init 3 connect_then_close initial_state)).1 :=
  have h1 : accept_avoids 3 connect_then_close.cycles := by
    intro c hc o ho
    simp only [connect_then_close, List.mem_cons, List.not_mem_nil, or_false] at hc
    rcases hc with rfl | rfl
    · simp only [List.mem_singleton] at ho
      subst ho
      decide
    · simp only [List.mem_singleton] at ho
      subst ho
      decide
  have h2 : reports_registered linux 3 4 connect_then_close.cycles
      (loop_init 3 connect_then_close initial_state) := by
    intro _
    refine ⟨by decide, ?_⟩
    intro _
    exact ⟨by decide, trivial⟩
  ⟨⟨by decide, by decide, h1, h2⟩,
   (((registration_invariant_kept linux 3 connect_then_close initial_state).2
      (by decide) (by decide) rfl rfl (by intro i hi; cases hi) rfl h1 h2).1 2).1⟩

/-! ## The claims of the specification -/

/-- Claim C1 (echo).  For every descriptor `fd` and every byte sequence `S` with
`1 ≤ |S| ≤ BUFSIZ - 1` returned by the single `recv`, the NUL is stored at an
index inside the `BUFSIZ`-byte buffer, the first `|S|` bytes of the buffer
are still `S` after that store, and `handle_event_read` returns 0 having
performed exactly: the `recv` on `fd`, the log of the payload, and one `send`
on `fd` of exactly the bytes `S`; so no other descriptor is sent to. -/
theorem C1_echo (k : Consts) (stack : Nat → Nat) (fd : Int) (S : List Nat)
    (h1 : 1 ≤ S.length) (h2 : S.length ≤ k.BUFSIZ - 1) :
    S.length < ((RecvOutcome.data S).fill ((List.range' 0 k.BUFSIZ).map stack)).length ∧
    (((RecvOutcome.data S).fill ((List.range' 0 k.BUFSIZ).map stack)).set S.length 0).take
        S.length = S ∧
    handle_event_read k stack fd (.data S) =
      (0, [.recv fd (k.BUFSIZ - 1),
           .log_data fd (S.takeWhile (fun b => b ≠ 0)),
           .send fd S]) := by
  obtain ⟨rs, hrs⟩ := buffer_shape k stack S (by omega)
  refine ⟨?_, ?_, handle_event_read_data k stack fd S h1 h2⟩
  · simp [RecvOutcome.fill]
    omega
  · rw [hrs]
    simp

/-- Witness for claim C1: three bytes received on descriptor 5 on Linux. -/
theorem C1_echo_witness :
    (1 ≤ [104, 105, 10].length ∧ [104, 105, 10].length ≤ linux.BUFSIZ - 1) ∧
    handle_event_read linux (fun _ => 255) 5 (.data [104, 105, 10]) =
      (0, [.recv 5 8191, .log_data 5 [104, 105, 10], .send 5 [104, 105, 10]]) :=
  ⟨⟨by decide, by decide⟩,
   (C1_echo linux (fun _ => 255) 5 [104, 105, 10] (by decide) (by decide)).2.2⟩

/-- Claim C2 (accept outcome).  For every descriptor `client_fd ≥ 0` returned by
`accept`, after the accept branch `client_fd` is in the interest list if and
only if `client_fd < SOMAXCONN` and `setsockopt(TCP_NODELAY)`, `set_blocking`
and `epoll_ctl(ADD)` all succeeded; in every other case the last action of
the iteration is `close(client_fd)`, and afterwards `client_fd` is neither
registered nor among the open clients; in no case does the iteration perform
a `recv` or a `send`.  In the failing cases no `recv` or `send` is performed
on `client_fd` in the rest of the wake cycle and in any later wake cycle
either, whatever the outcomes, as long as `epoll_wait` reports registered
descriptors only and `accept` does not hand out the same number again. -/
theorem C2_accept_outcome (k : Consts) (server_fd epfd : Int) (o : IterEnv) (s : State)
    (h0 : 0 ≤ o.accept_ret) :
    (o.accept_ret ∈ (accept_branch k server_fd epfd o s).registered ↔ accept_succeeds k o) ∧
    (¬ accept_succeeds k o →
      o.accept_ret ∉ (accept_branch k server_fd epfd o s).registered ∧
      o.accept_ret ∉ (accept_branch k server_fd epfd o s).clients ∧
      ∃ acts, (accept_branch k server_fd epfd o s).trace =
        s.trace ++ acts ++ [.close o.accept_ret]) ∧
    (∃ acts, (accept_branch k server_fd epfd o s).trace = s.trace ++ acts ∧
      ∀ a ∈ acts, a.is_io = false) ∧
    (¬ accept_succeeds k o →
      ∀ (cy : Cycle) (i n : Nat) (cs : List Cycle),
        (cy.events.getD 0 default).fd = server_fd →
        (∀ j, i < j → (cy.iters.getD j default).accept_ret ≠ o.accept_ret) →
        accept_avoids o.accept_ret cs →
        reports_registered k server_fd epfd cs
          (deliver k cy.signals
            (for_loop k server_fd epfd cy (i + 1) n (accept_branch k server_fd epfd o s))) →
        quiet o.accept_ret (accept_branch k server_fd epfd o s)
          (while_loop k server_fd epfd cs
            (deliver k cy.signals
              (for_loop k server_fd epfd cy (i + 1) n
                (accept_branch k server_fd epfd o s)))).1) := by
  obtain ⟨p1, p2, p3⟩ := accept_branch_outcome k server_fd epfd o s h0
  refine ⟨p1, p2, p3, ?_⟩
  intro hfail cy i n cs hev hlater hav hrep
  have hnr := (p2 hfail).1
  obtain ⟨q1, r1⟩ := for_loop_quiet k server_fd epfd o.accept_ret cy (Or.inl hev) n (i + 1)
    _ hnr (fun j hj => hlater j (by omega))
  obtain ⟨q2, r2⟩ := deliver_quiet k o.accept_ret cy.signals _ r1
  have q3 := while_loop_quiet k server_fd epfd o.accept_ret h0 cs _ r2 hav hrep
  exact quiet_trans _ _ _ _ q1 (quiet_trans _ _ _ _ q2 q3)

/-- Witness for claim C2: `accept` returns descriptor 128 on Linux, which is
rejected, closed and not registered. -/
theorem C2_accept_outcome_witness :
    (0 : Int) ≤ ({ accept_ret := 128 } : IterEnv).accept_ret ∧
    ¬ accept_succeeds linux { accept_ret := 128 } ∧
    (128 : Int) ∉ (accept_branch linux 3 4 { accept_ret := 128 } ⟨1, [3], [], []⟩).registered :=
  ⟨by decide, by decide,
   ((C2_accept_outcome linux 3 4 { accept_ret := 128 } ⟨1, [3], [], []⟩ (by decide)).2.1
      (by decide)).1⟩

/-- Claim C3 (per-slot dispatch), evaluated on the code.  Two events are ready, slot
0 for client 5 and slot 1 for client 6, both readable.  Iteration 1 performs
its `recv` on descriptor 5, the descriptor of slot 0, and descriptor 6 is not
served in the cycle. -/
theorem C3_dispatch_reads_slot_zero :
    loop_body linux 3 4 [⟨1, 5⟩, ⟨1, 6⟩] 1 { recv := .error 11 } ⟨1, [6, 5, 3], [6, 5], []⟩
      = ⟨1, [6, 5, 3], [6, 5], [.recv 5 8191]⟩ ∧
    wake_cycle linux 3 4
        ⟨2, [⟨1, 5⟩, ⟨1, 6⟩], [{ recv := .data [104, 105] }, { recv := .error 11 }], []⟩
        ⟨1, [6, 5, 3], [6, 5], []⟩
      = ⟨1, [6, 5, 3], [6, 5],
          [.epoll_wait 4 128, .recv 5 8191, .log_data 5 [104, 105], .send 5 [104, 105],
           .recv 5 8191]⟩ := by
  constructor <;> decide

/-- Claim C4 (close exactly once), evaluated on the code.  Clients 5 and 6 are ready
and the `recv` on 5 returns zero bytes.  Descriptor 5 is deregistered and
closed in iteration 0; iteration 1 then performs a `recv` on the closed
descriptor 5 (failing with `EBADF` = 9), prints a second `Closing FD 5`, and
deregisters and closes 5 a second time. -/
theorem C4_closed_descriptor_served_again :
    wake_cycle linux 3 4
        ⟨2, [⟨1, 5⟩, ⟨1, 6⟩], [{ recv := .data [] }, { recv := .error 9 }], []⟩
        ⟨1, [6, 5, 3], [6, 5], []⟩
      = ⟨1, [6, 3], [6],
          [.epoll_wait 4 128,
           .recv 5 8191, .log_closing 5, .table_index 5, .epoll_ctl_del 4 5, .close 5,
           .recv 5 8191, .perror .recv, .log_closing 5, .table_index 5, .epoll_ctl_del 4 5,
           .close 5]⟩ := by
  decide

/-- Claim C5 (receive classification).  `handle_event_read` returns -1 exactly
when `recv` returned 0 or returned a negative value with an errno other than
`EAGAIN` and `EWOULDBLOCK`; in that case the client branch of `server_loop`
logs the closure, deregisters the descriptor and closes it.  When `recv`
fails with `EAGAIN` or `EWOULDBLOCK` the function returns 0 having done
nothing but the `recv` (no log, no send), and the client branch leaves the
interest list and the set of open clients as they were. -/
theorem C5_receive_classification (k : Consts) (stack : Nat → Nat) (fd : Int)
    (r : RecvOutcome) :
    ((handle_event_read k stack fd r).1 = -1 ↔
      (r.len = 0 ∨ (r.len < 0 ∧ r.errno ≠ k.EAGAIN ∧ r.errno ≠ k.EWOULDBLOCK))) ∧
    (r.len < 0 → (r.errno = k.EAGAIN ∨ r.errno = k.EWOULDBLOCK) →
      handle_event_read k stack fd r = (0, [.recv fd (k.BUFSIZ - 1)])) ∧
    (∀ (epfd : Int) (o : IterEnv) (s : State), o.recv = r → o.stack = stack →
      ((handle_event_read k stack fd r).1 = -1 →
        client_branch k epfd fd o s =
          { s with
            registered := s.registered.filter (fun x => x ≠ fd),
            clients := s.clients.filter (fun x => x ≠ fd),
            trace := s.trace ++ (handle_event_read k stack fd r).2 ++
              [.log_closing fd, .table_index fd, .epoll_ctl_del epfd fd, .close fd] }) ∧
      (r.len < 0 → (r.errno = k.EAGAIN ∨ r.errno = k.EWOULDBLOCK) →
        client_branch k epfd fd o s =
          { s with trace := s.trace ++ [.recv fd (k.BUFSIZ - 1)] })) := by
  have hcls : (handle_event_read k stack fd r).1 = -1 ↔
      (r.len = 0 ∨ (r.len < 0 ∧ r.errno ≠ k.EAGAIN ∧ r.errno ≠ k.EWOULDBLOCK)) := by
    unfold handle_event_read
    by_cases hn : r.len < 0
    · by_cases he : r.errno = k.EAGAIN ∨ r.errno = k.EWOULDBLOCK
      · rw [if_pos hn, if_pos he]
        constructor
        · intro h; exact absurd (show (0 : Int) = -1 from h) (by decide)
        · rintro (h | ⟨_, h1, h2⟩)
          · omega
          · rcases he with he | he
            · exact absurd he h1
            · exact absurd he h2
      · rw [if_pos hn, if_neg he]
        push_neg at he
        exact ⟨fun _ => Or.inr ⟨hn, he.1, he.2⟩, fun _ => rfl⟩
    · by_cases hz : r.len = 0
      · rw [if_neg hn, if_pos hz]
        exact ⟨fun _ => Or.inl hz, fun _ => rfl⟩
      · rw [if_neg hn, if_neg hz]
        constructor
        · intro h; exact absurd (show (0 : Int) = -1 from h) (by decide)
        · rintro (h | ⟨h, _⟩)
          · exact absurd h hz
          · exact absurd h hn
  have hag : r.len < 0 → (r.errno = k.EAGAIN ∨ r.errno = k.EWOULDBLOCK) →
      handle_event_read k stack fd r = (0, [.recv fd (k.BUFSIZ - 1)]) := by
    intro hn he
    simp only [handle_event_read, hn, he, if_true]
  refine ⟨hcls, hag, ?_⟩
  intro epfd o s ho hs
  subst ho hs
  constructor
  · intro h
    simp only [client_branch, h, if_true, State.emit, State.epoll_del, State.close,
      List.append_assoc, List.cons_append, List.nil_append, List.filter_filter, Bool.and_self]
  · intro hn he
    have h0 := hag hn he
    simp only [client_branch, h0, State.emit]
    simp

/-- Witness for claim C5: `recv` fails with `EAGAIN` on descriptor 5 while 3 and 5
are registered; nothing but the `recv` happens and 5 stays registered. -/
theorem C5_receive_classification_witness :
    (RecvOutcome.error 11).len < 0 ∧
    ((RecvOutcome.error 11).errno = linux.EAGAIN ∨
      (RecvOutcome.error 11).errno = linux.EWOULDBLOCK) ∧
    client_branch linux 4 5 { recv := .error 11 } ⟨1, [5, 3], [5], []⟩ =
      ⟨1, [5, 3], [5], [.recv 5 8191]⟩ :=
  ⟨by decide, by decide,
   ((C5_receive_classification linux (fun _ => 0) 5 (.error 11)).2.2 4
      { recv := .error 11 } ⟨1, [5, 3], [5], []⟩ rfl rfl).2 (by decide) (by decide)⟩

/-- Claim C6 (capacity count), counterexample.  On Linux (`SOMAXCONN = 128`), with
descriptors 0 to 4 held by the process, 124 ≤ `SOMAXCONN` connections are made
and all stay open, but only 123 clients are registered: connection 124 was
handed descriptor 128, rejected and closed. -/
theorem C6_capacity_counterexample :
    124 ≤ linux.SOMAXCONN ∧
    (connect_all linux 124 listening_state).clients.length = 123 ∧
    (128 : Int) ∉ (connect_all linux 124 listening_state).registered ∧
    ¬ (∀ N, N ≤ linux.SOMAXCONN →
        (connect_all linux N listening_state).clients.length = N) := by
  obtain ⟨hc, hr⟩ := (connect_all_full linux (by decide) 123 (by decide) 1).1
  have hlen : (connect_all linux 124 listening_state).clients.length = 123 := by
    rw [hc, length_client_fds]
  refine ⟨by decide, hlen, ?_, ?_⟩
  · rw [hr]
    simp only [List.mem_append, List.mem_singleton, mem_client_fds]
    omega
  · intro h
    have := h 124 (by decide)
    omega

/-- Claim C6 (capacity count), as the code has it.  For a process that holds
descriptors 0 to 4 and hands out the lowest free number, with
`SOMAXCONN ≥ 5`: for every `N ≤ SOMAXCONN - 5`, after `N` connections that all
stay open exactly `N` clients are registered, under the pairwise distinct
descriptors `5 .. N + 4`, all below `SOMAXCONN`; connection number
`SOMAXCONN - 4`, and every connection after it (so also number
`SOMAXCONN + 1`), is handed descriptor `SOMAXCONN`, is rejected with the log
line and closed, and leaves the interest list and the set of clients
unchanged. -/
theorem C6_capacity_by_descriptor (k : Consts) (hE : k.EPOLLIN ≠ 0)
    (hS : 5 ≤ k.SOMAXCONN) :
    (∀ N, N ≤ k.SOMAXCONN - 5 →
      (connect_all k N listening_state).clients.length = N ∧
      (connect_all k N listening_state).clients.Nodup ∧
      (∀ x, x ∈ (connect_all k N listening_state).clients ↔ 5 ≤ x ∧ x < (N : Int) + 5) ∧
      (∀ x ∈ (connect_all k N listening_state).clients,
        x ∈ (connect_all k N listening_state).registered ∧ x < (k.SOMAXCONN : Int))) ∧
    (∀ m, connect_all k (k.SOMAXCONN - 5 + m + 1) listening_state =
      { connect_all k (k.SOMAXCONN - 5 + m) listening_state with
        trace := (connect_all k (k.SOMAXCONN - 5 + m) listening_state).trace ++
          [.epoll_wait 4 k.SOMAXCONN, .accept 3, .log_rejected,
           .close (k.SOMAXCONN : Int)] }) := by
  refine ⟨?_, fun m => (connect_all_full k hE (k.SOMAXCONN - 5) (by omega) m).2⟩
  intro N hN
  obtain ⟨hc, hr, _⟩ := connect_all_below k hE N (by omega)
  rw [hc, hr]
  refine ⟨length_client_fds N, nodup_client_fds N, mem_client_fds N, ?_⟩
  intro x hx
  refine ⟨List.mem_append_left _ hx, ?_⟩
  rw [mem_client_fds] at hx
  omega

/-- Witness for claim C6: on Linux the 123 clients on descriptors 5 to 127 are all
registered. -/
theorem C6_capacity_by_descriptor_witness :
    linux.EPOLLIN ≠ 0 ∧ 5 ≤ linux.SOMAXCONN ∧
    (connect_all linux 123 listening_state).clients.length = 123 :=
  ⟨by decide, by decide,
   ((C6_capacity_by_descriptor linux (by decide) (by decide)).1 123 (by decide)).1⟩

/-- Claim C7 (one unit of work per descriptor per cycle), evaluated on the code.  The
listening descriptor 3 and client 5 are ready in one cycle: `accept` is called
twice on 3 and 5 is not read.  Clients 5, 6 and 7 are ready in one cycle:
`recv` is called three times on 5. -/
theorem C7_repeated_work_on_slot_zero :
    wake_cycle linux 3 4
        ⟨2, [⟨1, 3⟩, ⟨1, 5⟩], [{ accept_ret := 6 }, { accept_ret := -1 }], []⟩
        ⟨1, [5, 3], [5], []⟩
      = ⟨1, [6, 5, 3], [6, 5],
          [.epoll_wait 4 128,
           .accept 3, .setsockopt_nodelay 6, .fcntl_getfl 6, .fcntl_setfl 6 2048,
           .table_index 6, .epoll_ctl_add 4 6, .log_accepted 6,
           .accept 3, .perror .accept]⟩ ∧
    wake_cycle linux 3 4
        ⟨3, [⟨1, 5⟩, ⟨1, 6⟩, ⟨1, 7⟩],
          [{ recv := .error 11 }, { recv := .error 11 }, { recv := .error 11 }], []⟩
        ⟨1, [7, 6, 5, 3], [7, 6, 5], []⟩
      = ⟨1, [7, 6, 5, 3], [7, 6, 5],
          [.epoll_wait 4 128, .recv 5 8191, .recv 5 8191, .recv 5 8191]⟩ := by
  constructor <;> decide

/-- Claim C8 (shutdown).  `handle_signal` clears `is_server_running` for `SIGINT`
and changes nothing for any other signal.  A readiness wait that returns a
negative count runs no iteration of the processing loop.  When `SIGINT` is
first delivered during wake cycle `c`, `server_loop` runs the cycles up to and
including `c`, then closes the epoll descriptor and returns, whatever further
cycles the environment could offer; when the flag is already cleared on
entry, it performs no wait at all.  Whenever `server_loop` returns, `main`
closes the listening descriptor, prints `Server exited` as its last output
and returns 0. -/
theorem C8_shutdown (k : Consts) :
    (∀ s : State, (handle_signal k k.SIGINT s).is_server_running = 0 ∧
      ∀ sig, sig ≠ k.SIGINT → handle_signal k sig s = s) ∧
    (∀ (server_fd epfd : Int) (c : Cycle) (s : State), c.num_events < 0 →
      wake_cycle k server_fd epfd c s =
        deliver k c.signals (s.emit [.epoll_wait epfd k.SOMAXCONN])) ∧
    (∀ (server_fd : Int) (e : LoopEnv) (s : State) (pre post : List Cycle) (c : Cycle),
      e.cycles = pre ++ c :: post → s.is_server_running ≠ 0 →
      (∀ c' ∈ pre, k.SIGINT ∉ c'.signals) → k.SIGINT ∈ c.signals →
      server_loop k server_fd e s =
        some ((run_cycles k server_fd e.epfd (pre ++ [c]) (loop_init server_fd e s)).emit
          [.close e.epfd])) ∧
    (∀ (server_fd : Int) (e : LoopEnv) (s : State), s.is_server_running = 0 →
      server_loop k server_fd e s = some ((loop_init server_fd e s).emit [.close e.epfd])) ∧
    (∀ (e : MainEnv) (s0 s1 : State), startup k e = .inr s0 →
      server_loop k e.socket_ret e.loop (deliver k e.early_signals s0) = some s1 →
      main k e = some (0, s1.emit [.close e.socket_ret, .log_exited]) ∧
      (s1.emit [.close e.socket_ret, .log_exited]).trace =
        s1.trace ++ [.close e.socket_ret, .log_exited]) := by
  refine ⟨?_, ?_, ?_, ?_, ?_⟩
  · intro s
    refine ⟨by simp [handle_signal], ?_⟩
    intro sig hsig
    simp [handle_signal, hsig]
  · intro server_fd epfd c s hneg
    have hz : c.num_events.toNat = 0 := by omega
    simp only [wake_cycle, hz, for_loop]
  · intro server_fd e s pre post c he hs hpre hc
    exact server_loop_sigint k server_fd e s pre post c he hs hpre hc
  · intro server_fd e s hs
    have h0 : (loop_init server_fd e s).is_server_running = 0 := hs
    unfold server_loop
    rw [while_loop_stopped _ _ _ _ _ h0]
    rfl
  · intro e s0 s1 h0 h1
    refine ⟨?_, rfl⟩
    unfold main
    rw [h0]
    simp only [h1]

/-- Witness for claim C8: on Linux, with descriptors 3 (listening) and 4 (epoll),
`SIGINT` arrives while the loop blocks in its first wait, which fails with
-1; a second cycle offered by the environment is never started. -/
theorem C8_shutdown_witness :
    server_loop linux 3
        ⟨4, 0, [⟨-1, [], [], [2]⟩, ⟨1, [⟨1, 3⟩], [{ accept_ret := 5 }], []⟩]⟩
        ⟨1, [], [], []⟩
      = some ⟨0, [3], [],
          [.epoll_create1, .table_index 3, .epoll_ctl_add 4 3, .epoll_wait 4 128,
           .close 4]⟩ :=
  ((C8_shutdown linux).2.2.1 3
      ⟨4, 0, [⟨-1, [], [], [2]⟩, ⟨1, [⟨1, 3⟩], [{ accept_ret := 5 }], []⟩]⟩
      ⟨1, [], [], []⟩ [] [⟨1, [⟨1, 3⟩], [{ accept_ret := 5 }], []⟩] ⟨-1, [], [], [2]⟩
      rfl (by decide) (by simp) (by decide)).trans (by decide)

/-- Claim C9 (startup fails loudly).  Once the options are parsed, `main` performs
`socket`, `setsockopt(SO_REUSEADDR)`, `set_blocking(.., 0)` (two `fcntl`
calls), `bind` to the given port and `listen` with backlog `SOMAXCONN`, in
this order.  For every outcome of these calls: at the first one that fails,
`perror` names the failing call, no later step is performed, and the process
ends with status `EXIT_FAILURE`, which is not 0, without `server_loop` having
been entered; `server_loop` is called exactly when all of them succeeded. -/
theorem C9_startup (k : Consts) (e : MainEnv) (port : Int) (hk : k.EXIT_FAILURE ≠ 0)
    (hp : parse_options k e.opts 9999 = .inl port) :
    (e.socket_ret < 0 →
      startup k e = .inl (k.EXIT_FAILURE,
        ⟨1, [], [], [.signal_install, .socket, .perror .socket]⟩)) ∧
    (0 ≤ e.socket_ret → e.setsockopt_ret < 0 →
      startup k e = .inl (k.EXIT_FAILURE,
        ⟨1, [], [], [.signal_install, .socket, .setsockopt_reuseaddr e.socket_ret,
          .perror .setsockopt, .close e.socket_ret]⟩)) ∧
    (0 ≤ e.socket_ret → 0 ≤ e.setsockopt_ret → e.getfl_ret = -1 →
      startup k e = .inl (k.EXIT_FAILURE,
        ⟨1, [], [], [.signal_install, .socket, .setsockopt_reuseaddr e.socket_ret,
          .fcntl_getfl e.socket_ret, .perror .fcntl, .close e.socket_ret]⟩)) ∧
    (0 ≤ e.socket_ret → 0 ≤ e.setsockopt_ret → e.getfl_ret ≠ -1 → e.setfl_ret ≠ 0 →
      startup k e = .inl (k.EXIT_FAILURE,
        ⟨1, [], [], [.signal_install, .socket, .setsockopt_reuseaddr e.socket_ret,
          .fcntl_getfl e.socket_ret,
          .fcntl_setfl e.socket_ret (Int.lor e.getfl_ret k.O_NONBLOCK),
          .perror .fcntl, .close e.socket_ret]⟩)) ∧
    (0 ≤ e.socket_ret → 0 ≤ e.setsockopt_ret → e.getfl_ret ≠ -1 → e.setfl_ret = 0 →
      e.bind_ret < 0 →
      startup k e = .inl (k.EXIT_FAILURE,
        ⟨1, [], [], [.signal_install, .socket, .setsockopt_reuseaddr e.socket_ret,
          .fcntl_getfl e.socket_ret,
          .fcntl_setfl e.socket_ret (Int.lor e.getfl_ret k.O_NONBLOCK),
          .bind e.socket_ret (port % 65536), .perror .bind, .close e.socket_ret]⟩)) ∧
    (0 ≤ e.socket_ret → 0 ≤ e.setsockopt_ret → e.getfl_ret ≠ -1 → e.setfl_ret = 0 →
      0 ≤ e.bind_ret → e.listen_ret < 0 →
      startup k e = .inl (k.EXIT_FAILURE,
        ⟨1, [], [], [.signal_install, .socket, .setsockopt_reuseaddr e.socket_ret,
          .fcntl_getfl e.socket_ret,
          .fcntl_setfl e.socket_ret (Int.lor e.getfl_ret k.O_NONBLOCK),
          .bind e.socket_ret (port % 65536), .listen e.socket_ret k.SOMAXCONN,
          .perror .listen, .close e.socket_ret]⟩)) ∧
    (0 ≤ e.socket_ret → 0 ≤ e.setsockopt_ret → e.getfl_ret ≠ -1 → e.setfl_ret = 0 →
      0 ≤ e.bind_ret → 0 ≤ e.listen_ret →
      startup k e = .inr
        ⟨1, [], [], [.signal_install, .socket, .setsockopt_reuseaddr e.socket_ret,
          .fcntl_getfl e.socket_ret,
          .fcntl_setfl e.socket_ret (Int.lor e.getfl_ret k.O_NONBLOCK),
          .bind e.socket_ret (port % 65536), .listen e.socket_ret k.SOMAXCONN,
          .log_listening port]⟩) ∧
    (∀ r, startup k e = .inl r →
      main k e = some r ∧ r.1 ≠ 0 ∧ Action.epoll_create1 ∉ r.2.trace ∧
      (e.socket_ret < 0 ∨ e.setsockopt_ret < 0 ∨ e.getfl_ret = -1 ∨ e.setfl_ret ≠ 0 ∨
        e.bind_ret < 0 ∨ e.listen_ret < 0)) ∧
    (∀ s0, startup k e = .inr s0 →
      main k e =
        (server_loop k e.socket_ret e.loop (deliver k e.early_signals s0)).map
          (fun s1 => (0, s1.emit [.close e.socket_ret, .log_exited]))) := by
  have c1 : e.socket_ret < 0 →
      startup k e = .inl (k.EXIT_FAILURE,
        ⟨1, [], [], [.signal_install, .socket, .perror .socket]⟩) := by
    intro h1
    simp [startup, hp, h1, State.emit, initial_state]
  have c2 : 0 ≤ e.socket_ret → e.setsockopt_ret < 0 →
      startup k e = .inl (k.EXIT_FAILURE,
        ⟨1, [], [], [.signal_install, .socket, .setsockopt_reuseaddr e.socket_ret,
          .perror .setsockopt, .close e.socket_ret]⟩) := by
    intro h1 h2
    have h1n : ¬ e.socket_ret < 0 := by omega
    simp [startup, hp, h1n, h2, State.emit, initial_state]
  have c3 : 0 ≤ e.socket_ret → 0 ≤ e.setsockopt_ret → e.getfl_ret = -1 →
      startup k e = .inl (k.EXIT_FAILURE,
        ⟨1, [], [], [.signal_install, .socket, .setsockopt_reuseaddr e.socket_ret,
          .fcntl_getfl e.socket_ret, .perror .fcntl, .close e.socket_ret]⟩) := by
    intro h1 h2 h3
    have h1n : ¬ e.socket_ret < 0 := by omega
    have h2n : ¬ e.setsockopt_ret < 0 := by omega
    simp [startup, hp, h1n, h2n, h3, set_blocking, State.emit, initial_state]
  have c4 : 0 ≤ e.socket_ret → 0 ≤ e.setsockopt_ret → e.getfl_ret ≠ -1 → e.setfl_ret ≠ 0 →
      startup k e = .inl (k.EXIT_FAILURE,
        ⟨1, [], [], [.signal_install, .socket, .setsockopt_reuseaddr e.socket_ret,
          .fcntl_getfl e.socket_ret,
          .fcntl_setfl e.socket_ret (Int.lor e.getfl_ret k.O_NONBLOCK),
          .perror .fcntl, .close e.socket_ret]⟩) := by
    intro h1 h2 h3 h4
    have h1n : ¬ e.socket_ret < 0 := by omega
    have h2n : ¬ e.setsockopt_ret < 0 := by omega
    simp [startup, hp, h1n, h2n, h3, h4, set_blocking, State.emit, initial_state]
  have c5 : 0 ≤ e.socket_ret → 0 ≤ e.setsockopt_ret → e.getfl_ret ≠ -1 → e.setfl_ret = 0 →
      e.bind_ret < 0 →
      startup k e = .inl (k.EXIT_FAILURE,
        ⟨1, [], [], [.signal_install, .socket, .setsockopt_reuseaddr e.socket_ret,
          .fcntl_getfl e.socket_ret,
          .fcntl_setfl e.socket_ret (Int.lor e.getfl_ret k.O_NONBLOCK),
          .bind e.socket_ret (port % 65536), .perror .bind, .close e.socket_ret]⟩) := by
    intro h1 h2 h3 h4 h5
    have h1n : ¬ e.socket_ret < 0 := by omega
    have h2n : ¬ e.setsockopt_ret < 0 := by omega
    simp [startup, hp, h1n, h2n, h3, h4, h5, set_blocking, State.emit, initial_state]
  have c6 : 0 ≤ e.socket_ret → 0 ≤ e.setsockopt_ret → e.getfl_ret ≠ -1 → e.setfl_ret = 0 →
      0 ≤ e.bind_ret → e.listen_ret < 0 →
      startup k e = .inl (k.EXIT_FAILURE,
        ⟨1, [], [], [.signal_install, .socket, .setsockopt_reuseaddr e.socket_ret,
          .fcntl_getfl e.socket_ret,
          .fcntl_setfl e.socket_ret (Int.lor e.getfl_ret k.O_NONBLOCK),
          .bind e.socket_ret (port % 65536), .listen e.socket_ret k.SOMAXCONN,
          .perror .listen, .close e.socket_ret]⟩) := by
    intro h1 h2 h3 h4 h5 h6
    have h1n : ¬ e.socket_ret < 0 := by omega
    have h2n : ¬ e.setsockopt_ret < 0 := by omega
    have h5n : ¬ e.bind_ret < 0 := by omega
    simp [startup, hp, h1n, h2n, h3, h4, h5n, h6, set_blocking, State.emit, initial_state]
  have c7 : 0 ≤ e.socket_ret → 0 ≤ e.setsockopt_ret → e.getfl_ret ≠ -1 → e.setfl_ret = 0 →
      0 ≤ e.bind_ret → 0 ≤ e.listen_ret →
      startup k e = .inr
        ⟨1, [], [], [.signal_install, .socket, .setsockopt_reuseaddr e.socket_ret,
          .fcntl_getfl e.socket_ret,
          .fcntl_setfl e.socket_ret (Int.lor e.getfl_ret k.O_NONBLOCK),
          .bind e.socket_ret (port % 65536), .listen e.socket_ret k.SOMAXCONN,
          .log_listening port]⟩ := by
    intro h1 h2 h3 h4 h5 h6
    have h1n : ¬ e.socket_ret < 0 := by omega
    have h2n : ¬ e.setsockopt_ret < 0 := by omega
    have h5n : ¬ e.bind_ret < 0 := by omega
    have h6n : ¬ e.listen_ret < 0 := by omega
    simp [startup, hp, h1n, h2n, h3, h4, h5n, h6n, set_blocking, State.emit, initial_state]
  refine ⟨c1, c2, c3, c4, c5, c6, c7, ?_, ?_⟩
  · intro r hr
    have hm : main k e = some r := by simp [main, hr]
    refine ⟨hm, ?_⟩
    by_cases h1 : e.socket_ret < 0
    · rw [c1 h1] at hr
      obtain rfl := Sum.inl.inj hr
      exact ⟨hk, by simp, Or.inl h1⟩
    have h1p : 0 ≤ e.socket_ret := by omega
    by_cases h2 : e.setsockopt_ret < 0
    · rw [c2 h1p h2] at hr
      obtain rfl := Sum.inl.inj hr
      exact ⟨hk, by simp, Or.inr (Or.inl h2)⟩
    have h2p : 0 ≤ e.setsockopt_ret := by omega
    by_cases h3 : e.getfl_ret = -1
    · rw [c3 h1p h2p h3] at hr
      obtain rfl := Sum.inl.inj hr
      exact ⟨hk, by simp, Or.inr (Or.inr (Or.inl h3))⟩
    by_cases h4 : e.setfl_ret = 0
    · by_cases h5 : e.bind_ret < 0
      · rw [c5 h1p h2p h3 h4 h5] at hr
        obtain rfl := Sum.inl.inj hr
        exact ⟨hk, by simp, Or.inr (Or.inr (Or.inr (Or.inr (Or.inl h5))))⟩
      have h5p : 0 ≤ e.bind_ret := by omega
      by_cases h6 : e.listen_ret < 0
      · rw [c6 h1p h2p h3 h4 h5p h6] at hr
        obtain rfl := Sum.inl.inj hr
        exact ⟨hk, by simp, Or.inr (Or.inr (Or.inr (Or.inr (Or.inr h6))))⟩
      · rw [c7 h1p h2p h3 h4 h5p (by omega)] at hr
        cases hr
    · rw [c4 h1p h2p h3 h4] at hr
      obtain rfl := Sum.inl.inj hr
      exact ⟨hk, by simp, Or.inr (Or.inr (Or.inr (Or.inl h4)))⟩
  · intro s0 h0
    unfold main
    rw [h0]
    dsimp only
    cases server_loop k e.socket_ret e.loop (deliver k e.early_signals s0) <;> rfl

/-- Witness for claim C9: on Linux, with no options, `socket` returns 3 and `bind`
fails; the process reports `bind()`, closes 3 and ends with status 1. -/
theorem C9_startup_witness :
    startup linux ⟨[], 3, 0, 2, 0, -1, 0, [], ⟨4, 0, []⟩⟩ =
      .inl (1, ⟨1, [], [], [.signal_install, .socket, .setsockopt_reuseaddr 3,
        .fcntl_getfl 3, .fcntl_setfl 3 2050, .bind 3 9999, .perror .bind, .close 3]⟩) :=
  (C9_startup linux ⟨[], 3, 0, 2, 0, -1, 0, [], ⟨4, 0, []⟩⟩ 9999 (by decide) rfl).2.2.2.2.1
    (by decide) (by decide) (by decide) rfl (by decide)

/-- Claim C10 (registration invariant), evaluated on the code.  Listening
descriptor 3 is inside the table (`0 ≤ 3 < SOMAXCONN`), but `epoll_create1`
fails: line 56 calls `epoll_ctl(ADD, 3)` on descriptor -1 and ignores its
result -1, and the loop is entered.  Every wait fails at once, `accept`
returns nothing and no event is reported, so the kernel guarantees hold
trivially.  At the end of the first and of the second loop iteration the
interest list is empty: the listening descriptor is not registered, and the
registration invariant is false. -/
theorem C10_listening_descriptor_not_registered :
    ((0 : Int) ≤ 3 ∧ (3 : Int) < (linux.SOMAXCONN : Int)) ∧
    (accept_avoids 3 no_epoll_instance.cycles ∧
      reports_registered linux 3 no_epoll_instance.epfd no_epoll_instance.cycles
        (loop_init 3 no_epoll_instance initial_state)) ∧
    (while_loop linux 3 no_epoll_instance.epfd (no_epoll_instance.cycles.take 1)
        (loop_init 3 no_epoll_instance initial_state)).1
      = ⟨1, [], [],
          [.epoll_create1, .table_index 3, .epoll_ctl_add (-1) 3, .epoll_wait (-1) 128]⟩ ∧
    (while_loop linux 3 no_epoll_instance.epfd (no_epoll_instance.cycles.take 2)
        (loop_init 3 no_epoll_instance initial_state)).1
      = ⟨1, [], [],
          [.epoll_create1, .table_index 3, .epoll_ctl_add (-1) 3, .epoll_wait (-1) 128,
           .epoll_wait (-1) 128]⟩ ∧
    ¬ registration_invariant linux 3
      (while_loop linux 3 no_epoll_instance.epfd (no_epoll_instance.cycles.take 1)
        (loop_init 3 no_epoll_instance initial_state)).1 ∧
    ¬ registration_invariant linux 3
      (while_loop linux 3 no_epoll_instance.epfd (no_epoll_instance.cycles.take 2)
        (loop_init 3 no_epoll_instance initial_state)).1 := by
  have e1 : (while_loop linux 3 no_epoll_instance.epfd (no_epoll_instance.cycles.take 1)
        (loop_init 3 no_epoll_instance initial_state)).1
      = ⟨1, [], [],
          [.epoll_create1, .table_index 3, .epoll_ctl_add (-1) 3, .epoll_wait (-1) 128]⟩ := by
    decide
  have e2 : (while_loop linux 3 no_epoll_instance.epfd (no_epoll_instance.cycles.take 2)
        (loop_init 3 no_epoll_instance initial_state)).1
      = ⟨1, [], [],
          [.epoll_create1, .table_index 3, .epoll_ctl_add (-1) 3, .epoll_wait (-1) 128,
           .epoll_wait (-1) 128]⟩ := by
    decide
  have hav : accept_avoids 3 no_epoll_instance.cycles := by
    intro c hc o ho
    simp only [no_epoll_instance, List.mem_cons, List.not_mem_nil, or_false] at hc
    rcases hc with rfl | rfl <;> simp at ho
  have hrep : reports_registered linux 3 no_epoll_instance.epfd no_epoll_instance.cycles
      (loop_init 3 no_epoll_instance initial_state) := by
    have hz : ((-1 : Int)).toNat = 0 := by decide
    intro _
    refine ⟨fun i hi => absurd (hz ▸ hi) (Nat.not_lt_zero i), ?_⟩
    intro _
    exact ⟨fun i hi => absurd (hz ▸ hi) (Nat.not_lt_zero i), trivial⟩
  refine ⟨⟨by decide, by decide⟩, ⟨hav, hrep⟩, e1, e2, ?_, ?_⟩
  · rw [e1]
    intro h
    have h3 := (h.1 3).2 (Or.inl rfl)
    simp at h3
  · rw [e2]
    intro h
    have h3 := (h.1 3).2 (Or.inl rfl)
    simp at h3

end EchoServer
